import Mathlib

/-!
# Receipt processor: validation, scoring and the score store

A shallow embedding of `main.go` (package `main` of the receipt processor) and of the
standard-library functions it calls, followed by theorems about them.

Modelling conventions.

* A Go `string` is modelled as the list of Unicode code points of a valid UTF-8 string
  (`GoString`).  Every string the handlers see comes out of `encoding/json`, which only
  produces valid UTF-8.  Operations that Go performs on bytes (`len`, indexing, slicing,
  `strconv.Atoi`, `strconv.ParseFloat`) are performed on the UTF-8 encoding `bytes s`.
* Go's `int` is the 64-bit two's complement integer: values are `Int`s and every addition made
  by the program is followed by `wrap64`.
* `float64` values are modelled exactly (`F64`): a sign, an integer significand and a binary
  exponent, with round-to-nearest-even where IEEE 754 rounds.
* A run-time panic (index or slice out of range) is the result `none`.
-/

namespace ReceiptProcessor

/-! ## Strings and bytes -/

/-- A Go string, as the sequence of code points of its (valid) UTF-8 contents. -/
abbrev GoString := List Char

/-- UTF-8 encoding of one code point. -/
def utf8EncodeRune (c : Nat) : List Nat :=
  if c < 0x80 then [c]
  else if c < 0x800 then [0xC0 + c / 64, 0x80 + c % 64]
  else if c < 0x10000 then [0xE0 + c / 4096, 0x80 + c / 64 % 64, 0x80 + c % 64]
  else [0xF0 + c / 262144, 0x80 + c / 4096 % 64, 0x80 + c / 64 % 64, 0x80 + c % 64]

/-- The bytes of a Go string. -/
def bytes (s : GoString) : List Nat :=
  s.flatMap (fun c => utf8EncodeRune c.toNat)

/-- Go `len(s)` for a string: its number of bytes. -/
def len (s : GoString) : Int :=
  ((bytes s).length : Int)

/-- Go index expression `s[i]` on the bytes of a string; `none` is the out-of-range panic. -/
def byteAt (b : List Nat) (i : Int) : Option Nat :=
  if 0 ≤ i then b[i.toNat]? else none

/-- Go slice expression `s[lo:hi]` on the bytes of a string; `none` is the out-of-range panic. -/
def sliceBytes (b : List Nat) (lo hi : Int) : Option (List Nat) :=
  if 0 ≤ lo ∧ lo ≤ hi ∧ hi ≤ (b.length : Int) then
    some ((b.drop lo.toNat).take (hi.toNat - lo.toNat))
  else none

/-- The function `lower` of package `strconv`: `c | ('x' - 'X')`. -/
def lower (c : Nat) : Nat :=
  c ||| 32

/-- Subtraction of bytes (`uint8`), which wraps around. -/
def byteSub (a b : Nat) : Nat :=
  (a + 256 - b) % 256

/-- Go `unicode.IsSpace`. -/
def isSpace (r : Char) : Bool :=
  let n := r.toNat
  if n ≤ 0xFF then
    n == 9 || n == 10 || n == 11 || n == 12 || n == 13 || n == 32 || n == 0x85 || n == 0xA0
  else
    n == 0x1680 || (0x2000 ≤ n && n ≤ 0x200a) || n == 0x2028 || n == 0x2029 || n == 0x202f
      || n == 0x205f || n == 0x3000

/-- Go `strings.TrimSpace`: the string without its leading and trailing white space. -/
def TrimSpace (s : GoString) : GoString :=
  ((s.dropWhile isSpace).reverse.dropWhile isSpace).reverse

/-- Go `strings.HasPrefix`. -/
def HasPrefix (s pre : GoString) : Bool :=
  pre.isPrefixOf s

/-- Go `strings.HasSuffix`. -/
def HasSuffix (s suf : GoString) : Bool :=
  suf.isSuffixOf s

/-- Go `strings.TrimPrefix`. -/
def TrimPrefix (s pre : GoString) : GoString :=
  if HasPrefix s pre then s.drop pre.length else s

/-- Go `strings.TrimSuffix`. -/
def TrimSuffix (s suf : GoString) : GoString :=
  if HasSuffix s suf then s.take (s.length - suf.length) else s

/-! ## 64-bit integers and `strconv.Atoi` -/

/-- Reduction of an integer to the range of Go's 64-bit `int`. -/
def wrap64 (x : Int) : Int :=
  (x + 2 ^ 63) % 2 ^ 64 - 2 ^ 63

/-- The two results of `strconv.Atoi`: the value and whether the error is non-nil. -/
structure AtoiResult where
  val : Int
  err : Bool
  deriving DecidableEq, Repr

/-- The digit loop of the fast path of `strconv.Atoi`. -/
def atoiFastLoop : List Nat → Nat → Option Nat
  | [], n => some n
  | ch :: rest, n =>
    let d := byteSub ch 48
    if d > 9 then none else atoiFastLoop rest (n * 10 + d)

/-- Outcome of `strconv.ParseUint`. -/
inductive UintResult where
  | ok (n : Nat)
  | syntaxErr
  | rangeErr
  deriving DecidableEq, Repr

/-- The digit loop of `strconv.ParseUint(s, 10, 0)` on a 64-bit platform. -/
def parseUintLoop : List Nat → Nat → UintResult
  | [], n => .ok n
  | c :: rest, n =>
    if 48 ≤ c ∧ c ≤ 57 then
      if n ≥ (2 ^ 64 - 1) / 10 + 1 then .rangeErr
      else
        let n1 := n * 10 + (c - 48)
        if n1 > 2 ^ 64 - 1 then .rangeErr else parseUintLoop rest n1
    else if 97 ≤ lower c ∧ lower c ≤ 122 then
      -- a letter is a digit of value at least 10, which is not below the base
      .syntaxErr
    else .syntaxErr

/-- Go `strconv.ParseUint(s, 10, 0)`. -/
def ParseUint (s : List Nat) : UintResult :=
  if s = [] then .syntaxErr else parseUintLoop s 0

/-- Go `strconv.ParseInt(s, 10, 0)` on a 64-bit platform. -/
def ParseInt (s : List Nat) : AtoiResult :=
  match s with
  | [] => ⟨0, true⟩
  | c0 :: rest =>
    let neg := c0 == 45
    let digits := if c0 = 43 ∨ c0 = 45 then rest else s
    match ParseUint digits with
    | .syntaxErr => ⟨0, true⟩
    | .rangeErr => if neg then ⟨-(2 ^ 63), true⟩ else ⟨2 ^ 63 - 1, true⟩
    | .ok un =>
      if ¬ neg ∧ un ≥ 2 ^ 63 then ⟨2 ^ 63 - 1, true⟩
      else if neg ∧ un > 2 ^ 63 then ⟨-(2 ^ 63), true⟩
      else ⟨if neg then -(un : Int) else (un : Int), false⟩

/-- Go `strconv.Atoi` on a 64-bit platform. -/
def Atoi (s : List Nat) : AtoiResult :=
  match s with
  | [] => ParseInt s
  | c0 :: rest =>
    if s.length < 19 then
      let signed := c0 == 45 || c0 == 43
      if signed && rest.isEmpty then ⟨0, true⟩
      else
        match atoiFastLoop (if signed then rest else s) 0 with
        | none => ⟨0, true⟩
        | some n => ⟨if c0 = 45 then -(n : Int) else (n : Int), false⟩
    else ParseInt s

/-! ## Validation of dates and times -/

/-- The function `isValidDate` of `main.go`; `none` would be a run-time panic. -/
def isValidDate (date : GoString) : Option Bool :=
  let b := bytes date
  if len date ≠ 10 then some false
  else do
    let c4 ← byteAt b 4
    if c4 ≠ 45 then some false
    else do
      let c7 ← byteAt b 7
      if c7 ≠ 45 then some false
      else do
        let year := Atoi (← sliceBytes b 0 4)
        let month := Atoi (← sliceBytes b 5 7)
        let day := Atoi (← sliceBytes b 8 10)
        if year.err || month.err || day.err then some false
        else if year.val < 1 || month.val < 1 || month.val > 12 || day.val < 1 || day.val > 31 then
          some false
        else some true

/-- The function `isValidTime` of `main.go`; `none` would be a run-time panic. -/
def isValidTime (time : GoString) : Option Bool :=
  let b := bytes time
  if len time ≠ 5 then some false
  else do
    let c2 ← byteAt b 2
    if c2 ≠ 58 then some false
    else do
      let hour := Atoi (← sliceBytes b 0 2)
      let minute := Atoi (← sliceBytes b 3 (len time))
      if hour.err || minute.err then some false
      else if hour.val < 0 || hour.val > 23 || minute.val < 0 || minute.val > 59 then some false
      else some true

/-! ## The `float64` model -/

/-- An IEEE 754 binary64 value: not-a-number, an infinity, or the finite value
`(-1)^neg * m * 2^e`.  Several triples may denote one value; the program only observes the
value. -/
inductive F64 where
  | nan
  | inf (neg : Bool)
  | fin (neg : Bool) (m : Nat) (e : Int)
  deriving DecidableEq, Repr

/-- Auxiliary loop of `bitLen`. -/
def bitLenAux : Nat → Nat → Nat
  | 0, _ => 0
  | fuel + 1, n => if n = 0 then 0 else 1 + bitLenAux fuel (n / 2)

/-- Number of binary digits of `n`. -/
def bitLen (n : Nat) : Nat :=
  bitLenAux n n

/-- The integer nearest to `n / d`, ties going to the even one. -/
def roundHalfEven (n d : Nat) : Nat :=
  let q := n / d
  let r := n % d
  if 2 * r < d then q
  else if d < 2 * r then q + 1
  else if q % 2 = 0 then q else q + 1

/-- The value `floor (log2 (n / d))` for positive `n` and `d`. -/
def floorLog2 (n d : Nat) : Int :=
  let k : Int := (bitLen n : Int) - (bitLen d : Int)
  if 0 ≤ k then
    if d * 2 ^ k.toNat ≤ n then k else k - 1
  else
    if d ≤ n * 2 ^ (-k).toNat then k else k - 1

/-- The integer nearest (ties to even) to `n / (d * 2^e)`. -/
def scaleRound (n d : Nat) (e : Int) : Nat :=
  if 0 ≤ e then roundHalfEven n (d * 2 ^ e.toNat)
  else roundHalfEven (n * 2 ^ (-e).toNat) d

/-- The binary64 value nearest to `(-1)^neg * n / d` (round to nearest, ties to even; 53-bit
significand, least exponent `-1074`); an infinity on overflow. -/
def roundF64 (neg : Bool) (n d : Nat) : F64 :=
  if n = 0 then .fin neg 0 0
  else
    let e := max (floorLog2 n d - 52) (-1074)
    let m := scaleRound n d e
    if e > 971 ∨ (e = 971 ∧ m ≥ 2 ^ 53) then .inf neg else .fin neg m e

/-- The binary64 value nearest to `(-1)^neg * m * 2^e`. -/
def roundBin (neg : Bool) (m : Nat) (e : Int) : F64 :=
  if 0 ≤ e then roundF64 neg (m * 2 ^ e.toNat) 1 else roundF64 neg m (2 ^ (-e).toNat)

/-- Multiplication of `float64` values. -/
def F64.mul : F64 → F64 → F64
  | .nan, _ => .nan
  | _, .nan => .nan
  | .inf a, .inf b => .inf (a != b)
  | .inf a, .fin b m _ => if m = 0 then .nan else .inf (a != b)
  | .fin a m _, .inf b => if m = 0 then .nan else .inf (a != b)
  | .fin a m e, .fin b m' e' => roundBin (a != b) (m * m') (e + e')

/-- Go `math.Mod(x, y)`: the remainder of `x / y`, exact, with the sign of `x`. -/
def Mod : F64 → F64 → F64
  | .nan, _ => .nan
  | .inf _, _ => .nan
  | .fin _ _ _, .nan => .nan
  | .fin neg m e, .inf _ => .fin neg m e
  | .fin neg m e, .fin _ my ey =>
    if my = 0 then .nan
    else
      let c := min e ey
      .fin neg ((m * 2 ^ (e - c).toNat) % (my * 2 ^ (ey - c).toNat)) c

/-- Go `math.Ceil`. -/
def Ceil : F64 → F64
  | .nan => .nan
  | .inf neg => .inf neg
  | .fin neg m e =>
    if 0 ≤ e then .fin neg m e
    else if neg then .fin true (m / 2 ^ (-e).toNat) 0
    else .fin false ((m + 2 ^ (-e).toNat - 1) / 2 ^ (-e).toNat) 0

/-- The comparison `x == 0` of a `float64` with the constant zero. -/
def F64.isZero : F64 → Bool
  | .fin _ m _ => m == 0
  | _ => false

/-- The conversion `int(x)` of a `float64`: truncation towards zero when the result fits the
64-bit `int`; otherwise the Go specification leaves the value to the implementation, here the
argument `oor`. -/
def F64.toInt (oor : F64 → Int) : F64 → Int
  | .fin neg m e =>
    let t : Nat := if 0 ≤ e then m * 2 ^ e.toNat else m / 2 ^ (-e).toNat
    let v : Int := if neg then -(t : Int) else (t : Int)
    if -(2 ^ 63) ≤ v ∧ v < 2 ^ 63 then v else wrap64 (oor (.fin neg m e))
  | x => wrap64 (oor x)

/-- The `float64` constants written `1`, `0.25` and `0.2` in `main.go`. -/
def const1 : F64 := roundF64 false 1 1

/-- The constant `0.25`. -/
def const025 : F64 := roundF64 false 25 100

/-- The constant `0.2`. -/
def const02 : F64 := roundF64 false 2 10

/-! ## `strconv.ParseFloat` -/

/-- The function `commonPrefixLenIgnoreCase` of package `strconv`; `pre` is lower case. -/
def commonPrefixLenIgnoreCase : List Nat → List Nat → Nat
  | c :: s, p :: pre =>
    let c := if 65 ≤ c ∧ c ≤ 90 then c + 32 else c
    if c ≠ p then 0 else 1 + commonPrefixLenIgnoreCase s pre
  | _, _ => 0

/-- The text `infinity`. -/
def infinityText : List Nat := [105, 110, 102, 105, 110, 105, 116, 121]

/-- The text `nan`. -/
def nanText : List Nat := [110, 97, 110]

/-- The function `special` of package `strconv`: the value and the number of bytes used. -/
def special (s : List Nat) : Option (F64 × Nat) :=
  match s with
  | [] => none
  | c0 :: rest =>
    if c0 = 43 ∨ c0 = 45 ∨ c0 = 105 ∨ c0 = 73 then
      let signed := c0 = 43 ∨ c0 = 45
      let body := if signed then rest else s
      let nsign := if signed then 1 else 0
      let n := commonPrefixLenIgnoreCase body infinityText
      let n := if 3 < n ∧ n < 8 then 3 else n
      if n = 3 ∨ n = 8 then some (.inf (c0 == 45), nsign + n) else none
    else if c0 = 110 ∨ c0 = 78 then
      if commonPrefixLenIgnoreCase s nanText = 3 then some (.nan, 3) else none
    else none

/-- The variables of the mantissa loop of `readFloat`. -/
structure MantState where
  sawdot : Bool := false
  sawdigits : Bool := false
  nd : Nat := 0
  dp : Int := 0
  mant : Nat := 0
  underscores : Bool := false
  deriving DecidableEq, Repr

/-- The mantissa loop of `readFloat`; returns the final variables and the unread input.
The significand is kept in full: where Go keeps 19 digits and a truncation flag it falls back
on an exact conversion of the whole digit string. -/
def readMantissa (hex : Bool) : List Nat → MantState → MantState × List Nat
  | [], st => (st, [])
  | c :: rest, st =>
    if c = 95 then readMantissa hex rest { st with underscores := true }
    else if c = 46 then
      if st.sawdot then (st, c :: rest)
      else readMantissa hex rest { st with sawdot := true, dp := st.nd }
    else if 48 ≤ c ∧ c ≤ 57 then
      if c = 48 ∧ st.nd = 0 then
        readMantissa hex rest { st with sawdigits := true, dp := st.dp - 1 }
      else
        readMantissa hex rest
          { st with sawdigits := true, nd := st.nd + 1,
                    mant := st.mant * (if hex then 16 else 10) + (c - 48) }
    else if hex ∧ 97 ≤ lower c ∧ lower c ≤ 102 then
      readMantissa hex rest
        { st with sawdigits := true, nd := st.nd + 1, mant := st.mant * 16 + (lower c - 97 + 10) }
    else (st, c :: rest)

/-- The exponent digit loop of `readFloat`: the exponent (no longer updated once it reaches
10000), whether an underscore was seen, and the unread input. -/
def readExpDigits : List Nat → Nat → Bool → Nat × Bool × List Nat
  | [], e, u => (e, u, [])
  | c :: rest, e, u =>
    if c = 95 then readExpDigits rest e true
    else if 48 ≤ c ∧ c ≤ 57 then readExpDigits rest (if e < 10000 then e * 10 + (c - 48) else e) u
    else (e, u, c :: rest)

/-- The loop of `underscoreOK`; `i` is the kind of the previous byte (`^`, `0`, `_` or `!`). -/
def underscoreLoop (hex : Bool) : List Nat → Nat → Bool
  | [], i => i ≠ 95
  | c :: s, i =>
    if (48 ≤ c ∧ c ≤ 57) ∨ (hex ∧ 97 ≤ lower c ∧ lower c ≤ 102) then underscoreLoop hex s 48
    else if c = 95 then
      if i ≠ 48 then false else underscoreLoop hex s 95
    else if i = 95 then false
    else underscoreLoop hex s 33

/-- The function `underscoreOK` of package `strconv`. -/
def underscoreOK (s : List Nat) : Bool :=
  let s := match s with
    | c :: rest => if c = 45 ∨ c = 43 then rest else s
    | [] => s
  match s with
  | c0 :: c1 :: rest =>
    if c0 = 48 ∧ (lower c1 = 98 ∨ lower c1 = 111 ∨ lower c1 = 120) then
      underscoreLoop (lower c1 == 120) rest 48
    else underscoreLoop false s 94
  | _ => underscoreLoop false s 94

/-- What `readFloat` extracts from the text of a number. -/
structure FloatText where
  neg : Bool
  hex : Bool
  mant : Nat
  exp : Int
  rest : List Nat
  deriving DecidableEq, Repr

/-- The function `readFloat` of package `strconv`; `none` when it reports `ok = false`.
The value read is `mant * 10^exp`, or `mant * 2^exp` for a hexadecimal number, and `rest` is
the input it did not consume. -/
def readFloat (s : List Nat) : Option FloatText :=
  match s with
  | [] => none
  | c0 :: rest0 =>
    let neg := c0 == 45
    let s1 := if c0 = 43 ∨ c0 = 45 then rest0 else s
    let hex : Bool := match s1 with
      | a :: b :: _ :: _ => a == 48 && lower b == 120
      | _ => false
    let s2 := if hex then s1.drop 2 else s1
    let (st, s3) := readMantissa hex s2 {}
    if ¬ st.sawdigits then none
    else
      let dp : Int := if st.sawdot then st.dp else st.nd
      let dp : Int := if hex then dp * 4 else dp
      let nd : Int := if hex then st.nd * 4 else st.nd
      let finish (dp : Int) (u : Bool) (s4 : List Nat) : Option FloatText :=
        if u ∧ ¬ underscoreOK (s.take (s.length - s4.length)) then none
        else some ⟨neg, hex, st.mant, if st.mant ≠ 0 then dp - nd else 0, s4⟩
      match s3 with
      | c :: s4 =>
        if lower c = (if hex then 112 else 101) then
          match s4 with
          | [] => none
          | c' :: s5 =>
            let esign : Int := if c' = 45 then -1 else 1
            let s6 := if c' = 43 ∨ c' = 45 then s5 else s4
            match s6 with
            | [] => none
            | c'' :: _ =>
              if c'' < 48 ∨ c'' > 57 then none
              else
                let (e, u, s7) := readExpDigits s6 0 st.underscores
                finish (dp + e * esign) u s7
        else if hex then none
        else finish dp st.underscores s3
      | [] => if hex then none else finish dp st.underscores s3

/-- Go `strconv.ParseFloat(s, 64)`: `some x` when the error is nil.  The error is non-nil when
the text is not a number or when the nearest `float64` is an infinity (range error). -/
def ParseFloat (s : List Nat) : Option F64 :=
  match special s with
  | some (x, n) => if n ≠ s.length then none else some x
  | none =>
    match readFloat s with
    | none => none
    | some t =>
      if t.rest ≠ [] then none
      else
        let x :=
          if t.hex then roundBin t.neg t.mant t.exp
          else if 0 ≤ t.exp then roundF64 t.neg (t.mant * 10 ^ t.exp.toNat) 1
          else roundF64 t.neg t.mant (10 ^ (-t.exp).toNat)
        match x with
        | .fin neg m e => some (.fin neg m e)
        | _ => none

/-! ## The data model of `main.go` -/

/-- The struct `Item`. -/
structure Item where
  ShortDescription : GoString
  Price : GoString
  deriving DecidableEq, Repr

/-- The struct `Receipt`, as decoded from JSON. -/
structure Receipt where
  Retailer : GoString
  PurchaseDate : GoString
  PurchaseTime : GoString
  Items : List Item
  Total : GoString
  deriving DecidableEq, Repr

/-- The package variable `receipts`, a `map[string]int` from identifier to points. -/
abbrev Store := GoString → Option Int

/-- The assignment `receipts[id] = points`. -/
def Store.set (receipts : Store) (id : GoString) (points : Int) : Store :=
  fun k => if k = id then some points else receipts k

/-! ## `calculatePoints` -/

/-- Rule 1 of `calculatePoints`: the loop over the runes of the retailer name. -/
def retailerLoop : List Char → Int → Int
  | [], points => points
  | char :: rest, points =>
    let c := char.toNat
    if (97 ≤ c ∧ c ≤ 122) ∨ (65 ≤ c ∧ c ≤ 90) ∨ (48 ≤ c ∧ c ≤ 57) then
      retailerLoop rest (wrap64 (points + 1))
    else retailerLoop rest points

/-- Rule 5 of `calculatePoints`: the loop over the items. -/
def itemsLoop (oor : F64 → Int) : List Item → Int → Int
  | [], points => points
  | item :: rest, points =>
    let descriptionLength := len (TrimSpace item.ShortDescription)
    if Int.tmod descriptionLength 3 = 0 then
      match ParseFloat (bytes item.Price) with
      | some price => itemsLoop oor rest (wrap64 (points + (Ceil (price.mul const02)).toInt oor))
      | none => itemsLoop oor rest points
    else itemsLoop oor rest points

/-- Rule 2 of `calculatePoints`: the round-dollar total. -/
def roundDollarRule (total : GoString) (points : Int) : Int :=
  match ParseFloat (bytes total) with
  | some total => if (Mod total const1).isZero then wrap64 (points + 50) else points
  | none => points

/-- Rule 3 of `calculatePoints`: the total that is a multiple of 0.25. -/
def quarterRule (total : GoString) (points : Int) : Int :=
  match ParseFloat (bytes total) with
  | some total => if (Mod total const025).isZero then wrap64 (points + 25) else points
  | none => points

/-- Rule 6 of `calculatePoints`: the odd day; `none` would be a run-time panic. -/
def oddDayRule (date : GoString) (points : Int) : Option Int :=
  if len date ≥ 10 then do
    let day ← sliceBytes (bytes date) (len date - 2) (len date)
    let dayInt := Atoi day
    pure (if dayInt.err = false ∧ Int.tmod dayInt.val 2 ≠ 0 then wrap64 (points + 6) else points)
  else pure points

/-- Rule 7 of `calculatePoints`: the afternoon; `none` would be a run-time panic.  In Go `&&`
binds tighter than `||`. -/
def afternoonRule (time : GoString) (points : Int) : Option Int :=
  if len time ≥ 5 then do
    let hour := Atoi (← sliceBytes (bytes time) 0 2)
    let minute := Atoi (← sliceBytes (bytes time) 3 (len time))
    pure (if (hour.err = false ∧ minute.err = false ∧ hour.val = 14 ∧ minute.val ≥ 0)
              ∨ (hour.val = 15 ∧ minute.val < 60) then wrap64 (points + 10) else points)
  else pure points

/-- The function `calculatePoints` of `main.go`.  The argument `oor` gives the value of an
out-of-range `int(float64)` conversion; `none` would be a run-time panic. -/
def calculatePoints (oor : F64 → Int) (receipt : Receipt) : Option Int := do
  let points : Int := 0
  let points := retailerLoop receipt.Retailer points
  let points := roundDollarRule receipt.Total points
  let points := quarterRule receipt.Total points
  let points := wrap64 (points + Int.tdiv (receipt.Items.length : Int) 2 * 5)
  let points := itemsLoop oor receipt.Items points
  let points ← oddDayRule receipt.PurchaseDate points
  let points ← afternoonRule receipt.PurchaseTime points
  return points

/-! ## The HTTP handlers -/

/-- What a handler reads of a `*http.Request`: method, URL path, `Content-Type` header and the
outcome of decoding the body as a `Receipt` (the decoder's error message, or the receipt). -/
structure Request where
  Method : GoString
  Path : GoString
  ContentType : GoString
  Body : Except GoString Receipt

/-- The body a handler writes. -/
inductive Payload where
  | text (msg : GoString)
  | id (id : GoString)
  | points (points : Int)
  deriving DecidableEq, Repr

/-- The response a handler writes: status code and body. -/
structure Response where
  status : Nat
  body : Payload
  deriving DecidableEq, Repr

/-- Go `http.Error(w, msg, code)`. -/
def httpError (msg : String) (code : Nat) : Response :=
  ⟨code, .text msg.toList⟩

/-- Sixteen random bytes, as filled in by a successful `rand.Read`. -/
abbrev Entropy := { l : List (Fin 256) // l.length = 16 }

/-- The table `hextable` of package `encoding/hex`. -/
def hextable : List Char := "0123456789abcdef".toList

/-- Go `hex.EncodeToString`. -/
def EncodeToString : List (Fin 256) → GoString
  | [] => []
  | v :: rest => hextable.getD (v.val / 16) '0' :: hextable.getD (v.val % 16) '0'
      :: EncodeToString rest

/-- The function `generateID` of `main.go`, given the outcome of `rand.Read`; `none` is the
fatal exit of the process when no random bytes can be read. -/
def generateID (rnd : Option Entropy) : Option GoString :=
  match rnd with
  | none => none
  | some b => some (EncodeToString b.val)

/-- The loop over the items in `processReceiptHandler`: the response of the first check that
fails, if any. -/
def validateItemsLoop : List Item → Option Response
  | [] => none
  | item :: rest =>
    if TrimSpace item.ShortDescription = [] then
      some (httpError "Invalid receipt: all items must have a valid shortDescription" 400)
    else
      match ParseFloat (bytes item.Price) with
      | none =>
        some (httpError
          "Invalid receipt: all items must have a valid price in the format '0.00'" 400)
      | some _ => validateItemsLoop rest

/-- The function `processReceiptHandler` of `main.go`: from the store, the request and the
outcome of `rand.Read` to the new store and the response.  `none` means that the handler did
not return (a run-time panic, or the fatal exit of `generateID`). -/
def processReceiptHandler (oor : F64 → Int) (receipts : Store) (r : Request)
    (rnd : Option Entropy) : Option (Store × Response) :=
  if r.Method ≠ "POST".toList then
    some (receipts, httpError "Only POST method is allowed" 405)
  else if r.ContentType ≠ "application/json".toList then
    some (receipts, httpError "Content-Type must be application/json" 415)
  else
    match r.Body with
    | .error err => some (receipts, ⟨400, .text ("Invalid JSON payload: ".toList ++ err)⟩)
    | .ok receipt =>
      if TrimSpace receipt.Retailer = [] then
        some (receipts, httpError "Invalid receipt: retailer field is required" 400)
      else do
        if ! (← isValidDate receipt.PurchaseDate) then
          some (receipts, httpError "Invalid purchaseDate. Expected format: YYYY-MM-DD" 400)
        else if ! (← isValidTime receipt.PurchaseTime) then
          some (receipts, httpError "Invalid purchaseTime. Expected format: HH:MM" 400)
        else if receipt.Items.length < 1 then
          some (receipts,
            httpError "Invalid receipt: items list must contain at least one item" 400)
        else
          match validateItemsLoop receipt.Items with
          | some resp => some (receipts, resp)
          | none => do
            let id ← generateID rnd
            let points ← calculatePoints oor receipt
            some (receipts.set id points, ⟨200, .id id⟩)

/-- The function `getPointsHandler` of `main.go`. -/
def getPointsHandler (receipts : Store) (r : Request) (id : GoString) : Response :=
  if r.Method ≠ "GET".toList then httpError "Only GET method is allowed" 405
  else if id = [] then httpError "Invalid receipt ID" 400
  else
    match receipts id with
    | none => httpError "Receipt not found" 404
    | some points => ⟨200, .points points⟩

/-- The function `handleReceipts` of `main.go`. -/
def handleReceipts (receipts : Store) (r : Request) : Response :=
  if r.Method ≠ "GET".toList then httpError "Only GET method is allowed" 405
  else
    let path := TrimPrefix r.Path "/receipts/".toList
    if HasSuffix path "/points".toList then
      let id := TrimSuffix path "/points".toList
      let id := TrimSuffix id "/".toList
      getPointsHandler receipts r id
    else httpError "Endpoint not found" 404

/-! ## Specification-side definitions

The contributions of the seven rules, the validation checks in the order of the
specification, the formats of dates and times, and the receipts used as concrete inputs. -/

/-- An ASCII letter or digit. -/
def isAsciiAlnum (c : Char) : Bool :=
  (97 ≤ c.toNat ∧ c.toNat ≤ 122) ∨ (65 ≤ c.toNat ∧ c.toNat ≤ 90) ∨ (48 ≤ c.toNat ∧ c.toNat ≤ 57)

/-- Contribution of the retailer: one per ASCII alphanumeric character. -/
def retailerPoints (r : Receipt) : Int :=
  (r.Retailer.countP isAsciiAlnum : Nat)

/-- Contribution of a whole-dollar total: 50. -/
def roundDollarPoints (r : Receipt) : Int :=
  match ParseFloat (bytes r.Total) with
  | some total => if (Mod total const1).isZero then 50 else 0
  | none => 0

/-- Contribution of a total that is a multiple of 0.25: 25. -/
def quarterPoints (r : Receipt) : Int :=
  match ParseFloat (bytes r.Total) with
  | some total => if (Mod total const025).isZero then 25 else 0
  | none => 0

/-- Contribution of the pairs of items: 5 per pair. -/
def pairPoints (r : Receipt) : Int :=
  5 * ((r.Items.length / 2 : Nat) : Int)

/-- Contribution of one item: `ceil (price * 0.2)` when the length of the trimmed description is
a multiple of 3 and the price parses. -/
def itemPoints (oor : F64 → Int) (item : Item) : Int :=
  if (bytes (TrimSpace item.ShortDescription)).length % 3 = 0 then
    match ParseFloat (bytes item.Price) with
    | some price => (Ceil (price.mul const02)).toInt oor
    | none => 0
  else 0

/-- Contribution of the descriptions: the sum of the items' contributions. -/
def descriptionPoints (oor : F64 → Int) (r : Receipt) : Int :=
  (r.Items.map (itemPoints oor)).sum

/-- Contribution of the day: 6 when the last two bytes of a date of at least 10 bytes parse as
an odd integer. -/
def oddDayPoints (r : Receipt) : Int :=
  let b := bytes r.PurchaseDate
  if 10 ≤ b.length then
    let day := Atoi (b.drop (b.length - 2))
    if day.err = false ∧ day.val % 2 ≠ 0 then 6 else 0
  else 0

/-- Contribution of the time: 10 when, for a time of at least 5 bytes, the hour (first two
bytes) and minute (bytes from index 3) satisfy the condition of rule 7. -/
def afternoonPoints (r : Receipt) : Int :=
  let b := bytes r.PurchaseTime
  if 5 ≤ b.length then
    let hour := Atoi (b.take 2)
    let minute := Atoi (b.drop 3)
    if (hour.err = false ∧ minute.err = false ∧ hour.val = 14 ∧ 0 ≤ minute.val)
        ∨ (hour.val = 15 ∧ minute.val < 60) then 10 else 0
  else 0

/-- The first witness receipt of the specification. -/
def targetReceipt : Receipt :=
  { Retailer := "Target".toList, PurchaseDate := "2022-01-01".toList,
    PurchaseTime := "13:01".toList,
    Items := [{ ShortDescription := "Mountain Dew 12PK".toList, Price := "6.49".toList }],
    Total := "35.35".toList }

/-- The second witness receipt of the specification. -/
def walmartReceipt : Receipt :=
  { Retailer := "Walmart".toList, PurchaseDate := "2023-12-25".toList,
    PurchaseTime := "15:30".toList,
    Items := [{ ShortDescription := "Pepsi".toList, Price := "2.00".toList }],
    Total := "2.00".toList }

/-- The checks made on the items, in sequence order, each with the reason reported when it
fails: for every item, first the description and then the price. -/
def itemChecks (items : List Item) : List (Bool × String) :=
  items.flatMap (fun item =>
    [ (TrimSpace item.ShortDescription != [],
        "Invalid receipt: all items must have a valid shortDescription"),
      ((ParseFloat (bytes item.Price)).isSome,
        "Invalid receipt: all items must have a valid price in the format '0.00'") ])

/-- The checks of the validator in the order of the specification, each with the reason
reported when it fails. -/
def validationChecks (r : Receipt) : List (Bool × String) :=
  [ (TrimSpace r.Retailer != [], "Invalid receipt: retailer field is required"),
    (isValidDate r.PurchaseDate == some true, "Invalid purchaseDate. Expected format: YYYY-MM-DD"),
    (isValidTime r.PurchaseTime == some true, "Invalid purchaseTime. Expected format: HH:MM"),
    (decide (1 ≤ r.Items.length), "Invalid receipt: items list must contain at least one item") ]
  ++ itemChecks r.Items

/-- The reason of the first check that fails, if any. -/
def firstFailure (r : Receipt) : Option String :=
  ((validationChecks r).find? (fun c => !c.1)).map (fun c => c.2)

/-- No validation check fails. -/
def passesValidation (r : Receipt) : Bool :=
  (validationChecks r).all (fun c => c.1)

/-- The request that posts a receipt: method `POST`, JSON content type, a body that decodes
to `receipt`. -/
def postReceipt (receipt : Receipt) : Request :=
  { Method := "POST".toList, Path := "/receipts/process".toList,
    ContentType := "application/json".toList, Body := .ok receipt }

/-- The request `GET /receipts/{id}/points`. -/
def getPoints (id : GoString) : Request :=
  { Method := "GET".toList, Path := "/receipts/".toList ++ id ++ "/points".toList,
    ContentType := [], Body := .error [] }

/-- The value of a finite `float64` is at most `2^K`. -/
def F64.leTwoPow (K : Nat) : F64 → Bool
  | .fin _ m e =>
    if 0 ≤ e then decide (m * 2 ^ e.toNat ≤ 2 ^ K) else decide (m ≤ 2 ^ K * 2 ^ (-e).toNat)
  | _ => false

/-- The value of a `float64` is a number that is not negative. -/
def F64.nonneg : F64 → Bool
  | .fin neg m _ => !neg || m == 0
  | _ => false

/-- A receipt that passes validation and has an item with a negative price. -/
def negativePriceReceipt : Receipt :=
  { Retailer := "X".toList, PurchaseDate := "2022-01-02".toList, PurchaseTime := "10:00".toList,
    Items := [{ ShortDescription := "Gum".toList, Price := "-100.00".toList }],
    Total := "9.99".toList }

/-- A decimal digit. -/
def isDigitChar (c : Char) : Bool :=
  48 ≤ c.toNat && c.toNat ≤ 57

/-- The number written by a sequence of decimal digits. -/
def digitsValue (s : List Char) : Nat :=
  s.foldl (fun n c => n * 10 + (c.toNat - 48)) 0

/-- The dates of the specification: exactly ten characters `YYYY-MM-DD`, all of `Y`, `M`, `D`
decimal digits, year at least 1, month in 1..12 and day in 1..31. -/
def wellFormedDate (s : GoString) : Bool :=
  match s with
  | [y1, y2, y3, y4, h1, m1, m2, h2, d1, d2] =>
    [y1, y2, y3, y4, m1, m2, d1, d2].all isDigitChar && h1 == '-' && h2 == '-'
      && 1 ≤ digitsValue [y1, y2, y3, y4]
      && 1 ≤ digitsValue [m1, m2] && digitsValue [m1, m2] ≤ 12
      && 1 ≤ digitsValue [d1, d2] && digitsValue [d1, d2] ≤ 31
  | _ => false

/-- The times of the specification: exactly five characters `HH:MM`, all of `H`, `M` decimal
digits, hour in 0..23 and minute in 0..59. -/
def wellFormedTime (s : GoString) : Bool :=
  match s with
  | [h1, h2, c, m1, m2] =>
    [h1, h2, m1, m2].all isDigitChar && c == ':'
      && digitsValue [h1, h2] ≤ 23 && digitsValue [m1, m2] ≤ 59
  | _ => false

/-- The hour of a time: the integer read from its first two bytes. -/
def hourOf (time : GoString) : Int :=
  (Atoi ((bytes time).take 2)).val

/-- The minute of a time: the integer read from its bytes from index 3 on. -/
def minuteOf (time : GoString) : Int :=
  (Atoi ((bytes time).drop 3)).val

/-- A time of day strictly later than 14:00 and strictly earlier than 16:00. -/
def strictlyBetween2And4 (hour minute : Int) : Bool :=
  14 * 60 < hour * 60 + minute && hour * 60 + minute < 16 * 60

/-- The receipt of the test "Missing retailer" of `main_test.go`. -/
def missingRetailerReceipt : Receipt :=
  { Retailer := [], PurchaseDate := "2022-01-01".toList, PurchaseTime := "13:01".toList,
    Items := [{ ShortDescription := "Mountain Dew 12PK".toList, Price := "6.49".toList }],
    Total := "35.35".toList }

/-- Sixteen zero bytes. -/
def zeroEntropy : Entropy :=
  ⟨List.replicate 16 0, rfl⟩

/-- The store that holds no receipt. -/
def emptyStore : Store :=
  fun _ => none

/-- The value of a finite `float64` is an integer multiple of `2^(-k)`: for the value
`m * 2^e` this holds when `e ≥ -k`, and otherwise when `2^(-e-k)` divides `m`. -/
def F64.isMultiple (k : Nat) : F64 → Bool
  | .fin _ m e => if -(k : Int) ≤ e then true else m % 2 ^ ((-e).toNat - k) == 0
  | _ => false

/-- The value of a `float64` is a whole number (no cents component). -/
def F64.isWhole (x : F64) : Bool :=
  x.isMultiple 0

/-- The value of a `float64` is a multiple of 0.25. -/
def F64.isQuarterMultiple (x : F64) : Bool :=
  x.isMultiple 2

/-- Contribution of the total: 50 when it parses to a whole number plus, independently, 25 when
it parses to a multiple of 0.25; 0 when it does not parse. -/
def totalPoints (total : GoString) : Int :=
  match ParseFloat (bytes total) with
  | some x => (if x.isWhole then 50 else 0) + (if x.isQuarterMultiple then 25 else 0)
  | none => 0

/-- The last two bytes of a string. -/
def lastTwoBytes (s : GoString) : List Nat :=
  (bytes s).drop ((bytes s).length - 2)

/-- A date of at least 10 bytes whose last two bytes parse as an odd integer. -/
def lastTwoOdd (date : GoString) : Bool :=
  decide (10 ≤ (bytes date).length) && !(Atoi (lastTwoBytes date)).err
    && decide ((Atoi (lastTwoBytes date)).val % 2 = 1)

/-- The day of the month of a date `YYYY-MM-DD`: the integer read from its bytes 8 and 9. -/
def dayOf (date : GoString) : Int :=
  (Atoi (((bytes date).drop 8).take 2)).val

/-- The value of a finite `float64` as a rational number (0 for a not-a-number or an
infinity). -/
def F64.toRat : F64 → ℚ
  | .fin neg m e =>
    let v : ℚ := if 0 ≤ e then ((m * 2 ^ e.toNat : Nat) : ℚ) else (m : ℚ) / ((2 ^ (-e).toNat : Nat) : ℚ)
    if neg then -v else v
  | _ => 0

/-- The code points with the Unicode property `White_Space`. -/
def whiteSpaceCodes : List Nat :=
  [0x09, 0x0A, 0x0B, 0x0C, 0x0D, 0x20, 0x85, 0xA0, 0x1680,
   0x2000, 0x2001, 0x2002, 0x2003, 0x2004, 0x2005, 0x2006, 0x2007, 0x2008, 0x2009, 0x200A,
   0x2028, 0x2029, 0x202F, 0x205F, 0x3000]

/-- A white space character. -/
def isWhiteSpace (c : Char) : Bool :=
  decide (c.toNat ∈ whiteSpaceCodes)

/-- A blank string: it holds white space only, or nothing at all. -/
def isBlank (s : GoString) : Bool :=
  s.all isWhiteSpace

/-- A string without its trailing white space: what is left up to its last character that is
not white space. -/
def stripTrailing : List Char → List Char
  | [] => []
  | c :: cs =>
    match stripTrailing cs with
    | [] => if isWhiteSpace c then [] else [c]
    | t => c :: t

/-- A string without its leading and trailing white space. -/
def trimWhite (s : GoString) : GoString :=
  stripTrailing (s.dropWhile isWhiteSpace)

/-- The item is counted by rule 5: the number of bytes of its description, leading and
trailing white space removed, is a multiple of 3. -/
def countedItem (item : Item) : Bool :=
  (bytes (trimWhite item.ShortDescription)).length % 3 == 0

/-- The least integer not below the value of a `float64`, as a 64-bit `int`.  When the value
is not finite or that integer is outside the range of `int`, the Go specification leaves the
conversion of the rounded-up `float64` to the implementation (`oor`). -/
def ceilInt (oor : F64 → Int) (y : F64) : Int :=
  match y with
  | .fin neg m e =>
    if -(2 ^ 63) ≤ ⌈(F64.fin neg m e).toRat⌉ ∧ ⌈(F64.fin neg m e).toRat⌉ < 2 ^ 63 then
      ⌈(F64.fin neg m e).toRat⌉
    else wrap64 (oor (Ceil y))
  | _ => wrap64 (oor (Ceil y))

/-- The term of rule 5 for a counted item: the ceiling of `price * 0.2`, the product being
that of `float64`, or 0 when the price does not parse. -/
def priceTerm (oor : F64 → Int) (item : Item) : Int :=
  match ParseFloat (bytes item.Price) with
  | some price => ceilInt oor (price.mul const02)
  | none => 0

/-- The item with its price replaced by the empty string, which does not parse. -/
def Item.withoutPrice (item : Item) : Item :=
  { item with Price := [] }

/-- The condition of rule 7 as the specification reads it: a time of at least 5 bytes whose
hour and minute both parse as integers and satisfy
`(hour == 14 and minute >= 0) or (hour == 15 and minute < 60)`. -/
def timeBonusSpec (time : GoString) : Bool :=
  decide (5 ≤ (bytes time).length)
    && !(Atoi ((bytes time).take 2)).err && !(Atoi ((bytes time).drop 3)).err
    && ((hourOf time == 14 && decide (0 ≤ minuteOf time))
        || (hourOf time == 15 && decide (minuteOf time < 60)))

/-- The receipt all of whose fields are empty. -/
def emptyReceipt : Receipt :=
  { Retailer := [], PurchaseDate := [], PurchaseTime := [], Items := [], Total := [] }

/-- Rule 2 fires: the total parses and `math.Mod(total, 1) == 0`. -/
def roundDollarFires (total : GoString) : Bool :=
  match ParseFloat (bytes total) with
  | some x => (Mod x const1).isZero
  | none => false

/-- Rule 3 fires: the total parses and `math.Mod(total, 0.25) == 0`. -/
def quarterFires (total : GoString) : Bool :=
  match ParseFloat (bytes total) with
  | some x => (Mod x const025).isZero
  | none => false

/-- The checks of the specification in its order, each with the reason reported when it
fails: retailer not blank, purchaseDate valid, purchaseTime valid, items not empty, then for
every item in sequence order description not blank and price parses. -/
def orderedChecks (r : Receipt) : List (Bool × String) :=
  [ (!isBlank r.Retailer, "Invalid receipt: retailer field is required"),
    (isValidDate r.PurchaseDate == some true, "Invalid purchaseDate. Expected format: YYYY-MM-DD"),
    (isValidTime r.PurchaseTime == some true, "Invalid purchaseTime. Expected format: HH:MM"),
    (!r.Items.isEmpty, "Invalid receipt: items list must contain at least one item") ]
  ++ r.Items.flatMap (fun item =>
    [ (!isBlank item.ShortDescription,
        "Invalid receipt: all items must have a valid shortDescription"),
      ((ParseFloat (bytes item.Price)).isSome,
        "Invalid receipt: all items must have a valid price in the format '0.00'") ])

/-- The reason of the first check of `orderedChecks` that fails, if any. -/
def firstFailing (r : Receipt) : Option String :=
  ((orderedChecks r).find? (fun c => !c.1)).map (fun c => c.2)

/-- The time is written with hour 14 or 15: its first two characters are `14` or `15`. -/
def hourIs14or15 (time : GoString) : Bool :=
  time.take 2 == "14".toList || time.take 2 == "15".toList

/-- Contribution of a whole-dollar total: 50 when the total parses to a whole number. -/
def wholeDollarPoints (total : GoString) : Int :=
  match ParseFloat (bytes total) with
  | some x => if x.isWhole then 50 else 0
  | none => 0

/-- Contribution of a total that is a multiple of 0.25: 25. -/
def quarterMultiplePoints (total : GoString) : Int :=
  match ParseFloat (bytes total) with
  | some x => if x.isQuarterMultiple then 25 else 0
  | none => 0

/-- The sum of the seven contributions of the specification, each computed on its own: one per
ASCII alphanumeric character of the retailer, 50 for a whole-dollar total, 25 for a total that
is a multiple of 0.25, 5 per pair of items, the ceiling of `price * 0.2` per counted item, 6
for an odd day and 10 for the afternoon window (rule 7 as the specification reads it). -/
def sumOfContributions (oor : F64 → Int) (r : Receipt) : Int :=
  ((r.Retailer.countP isAsciiAlnum : Nat) : Int)
    + wholeDollarPoints r.Total
    + quarterMultiplePoints r.Total
    + 5 * ((r.Items.length / 2 : Nat) : Int)
    + ((r.Items.filter countedItem).map (priceTerm oor)).sum
    + (if lastTwoOdd r.PurchaseDate then 6 else 0)
    + (if timeBonusSpec r.PurchaseTime then 10 else 0)

/-- The times at which rule 7 of the code departs from the specification: the hour reads 15
and the minute does not parse (`strconv.Atoi` then returns a value below 60 with its error). -/
def afternoonSlip (time : GoString) : Bool :=
  decide (5 ≤ (bytes time).length) && (Atoi ((bytes time).drop 3)).err
    && hourOf time == 15 && decide (minuteOf time < 60)

/-- A receipt with five items, two of which rule 5 counts, one of them with white space around
its description. -/
def fiveItemReceipt : Receipt :=
  { Retailer := "Target".toList, PurchaseDate := "2022-01-01".toList,
    PurchaseTime := "13:01".toList,
    Items := [{ ShortDescription := "Mountain Dew 12PK".toList, Price := "6.49".toList },
              { ShortDescription := "Emils Cheese Pizza".toList, Price := "12.25".toList },
              { ShortDescription := "Knorr Creamy Chicken".toList, Price := "1.26".toList },
              { ShortDescription := "Doritos Nacho Cheese".toList, Price := "3.35".toList },
              { ShortDescription := "   Klarbrunn 12-PK 12 FL OZ  ".toList,
                Price := "12.00".toList }],
    Total := "35.35".toList }

/-- A receipt with four items, none of which rule 5 counts, a whole-dollar total and a time
in the afternoon window. -/
def cornerMarketReceipt : Receipt :=
  { Retailer := "M&M Corner Market".toList, PurchaseDate := "2022-03-20".toList,
    PurchaseTime := "14:33".toList,
    Items := [{ ShortDescription := "Gatorade".toList, Price := "2.25".toList },
              { ShortDescription := "Gatorade".toList, Price := "2.25".toList },
              { ShortDescription := "Gatorade".toList, Price := "2.25".toList },
              { ShortDescription := "Gatorade".toList, Price := "2.25".toList }],
    Total := "9.00".toList }

/-! ## Lemmas -/

theorem isSpace_eq_isWhiteSpace (c : Char) : isSpace c = isWhiteSpace c := by
  unfold isSpace isWhiteSpace whiteSpaceCodes
  generalize c.toNat = n
  rw [Bool.eq_iff_iff]
  simp only [List.mem_cons, List.mem_singleton, List.not_mem_nil,
    or_false, decide_eq_true_eq]
  split <;> simp only [Bool.or_eq_true, beq_iff_eq, Bool.and_eq_true, decide_eq_true_eq] <;> omega

theorem dropWhile_append_singleton (p : Char → Bool) (l : List Char) (c : Char) :
    (l ++ [c]).dropWhile p
      = if l.dropWhile p = [] then (if p c then [] else [c]) else l.dropWhile p ++ [c] := by
  induction l with
  | nil => by_cases hc : p c = true <;> simp [List.dropWhile, hc]
  | cons a l ih =>
    by_cases ha : p a = true
    · simp only [List.cons_append, List.dropWhile_cons_of_pos ha, ih]
    · simp [List.dropWhile_cons_of_neg ha]

theorem stripTrailing_eq (l : List Char) :
    stripTrailing l = (l.reverse.dropWhile isWhiteSpace).reverse := by
  induction l with
  | nil => rfl
  | cons c cs ih =>
    rw [stripTrailing, ih, List.reverse_cons, dropWhile_append_singleton]
    by_cases h : cs.reverse.dropWhile isWhiteSpace = []
    · simp only [h, List.reverse_nil, if_true]
      split <;> rfl
    · simp only [h, if_false, List.reverse_append, List.reverse_singleton, List.singleton_append]
      cases hr : (List.dropWhile isWhiteSpace cs.reverse).reverse with
      | nil =>
        exfalso
        apply h
        have := congrArg List.reverse hr
        simpa using this
      | cons x xs => rfl

theorem TrimSpace_eq_trimWhite (s : GoString) : TrimSpace s = trimWhite s := by
  unfold TrimSpace trimWhite
  have : isSpace = isWhiteSpace := funext isSpace_eq_isWhiteSpace
  rw [this, stripTrailing_eq]

theorem stripTrailing_eq_nil (l : List Char) : stripTrailing l = [] ↔ l.all isWhiteSpace = true := by
  induction l with
  | nil => simp [stripTrailing]
  | cons c cs ih =>
    rw [stripTrailing]
    cases h : stripTrailing cs with
    | nil =>
      have h2 := ih.1 h
      by_cases hc : isWhiteSpace c = true <;> simp [hc, h2]
    | cons x xs =>
      have h2 : ¬ cs.all isWhiteSpace = true := fun hh => by
        rw [ih.2 hh] at h; cases h
      simp only [List.all_cons, Bool.and_eq_true, reduceCtorEq, false_iff, not_and]
      intro _; exact h2

theorem TrimSpace_eq_nil_iff (s : GoString) : TrimSpace s = [] ↔ isBlank s = true := by
  rw [TrimSpace_eq_trimWhite]
  unfold trimWhite isBlank
  rw [stripTrailing_eq_nil]
  constructor
  · intro h
    rw [List.all_eq_true] at h ⊢
    intro c hc
    by_contra hn
    have hmem : ∃ x ∈ s, ¬ isWhiteSpace x = true := ⟨c, hc, hn⟩
    have hne : s.dropWhile isWhiteSpace ≠ [] := by
      intro h0
      rw [List.dropWhile_eq_nil_iff] at h0
      exact hn (h0 c hc)
    obtain ⟨y, ys, hy⟩ := List.exists_cons_of_ne_nil hne
    have hhead : ¬ isWhiteSpace y = true := by
      have := List.head_dropWhile_not isWhiteSpace s hne
      simp only [hy, List.head_cons] at this
      simpa using this
    exact hhead (h y (by rw [hy]; exact List.mem_cons_self _ _))
  · intro h
    have : s.dropWhile isWhiteSpace = [] := by
      rw [List.dropWhile_eq_nil_iff]
      rw [List.all_eq_true] at h
      exact h
    rw [this]; rfl

theorem wrap64_of_range (x : Int) (h1 : -(2 ^ 63) ≤ x) (h2 : x < 2 ^ 63) : wrap64 x = x := by
  unfold wrap64; omega

theorem wrap64_range (x : Int) : -(2 ^ 63) ≤ wrap64 x ∧ wrap64 x < 2 ^ 63 := by
  unfold wrap64; omega

theorem wrap64_add_left (a b : Int) : wrap64 (wrap64 a + b) = wrap64 (a + b) := by
  unfold wrap64; omega

theorem wrap64_idem (a : Int) : wrap64 (wrap64 a) = wrap64 a := by
  unfold wrap64; omega

theorem retailerLoop_eq (s : List Char) (a : Int) :
    retailerLoop s (wrap64 a) = wrap64 (a + (s.countP isAsciiAlnum : Nat)) := by
  induction s generalizing a with
  | nil => simp [retailerLoop]
  | cons c rest ih =>
    by_cases h : isAsciiAlnum c = true
    · have h' := h
      simp only [isAsciiAlnum, decide_eq_true_eq] at h'
      rw [retailerLoop]
      simp only [h', if_true, wrap64_add_left, ih, List.countP_cons_of_pos _ _ h]
      congr 1; push_cast; ring
    · have h' := h
      simp only [isAsciiAlnum, decide_eq_true_eq] at h'
      rw [retailerLoop]
      simp only [h', if_false, ih, List.countP_cons_of_neg _ _ h]

theorem itemsLoop_eq (oor : F64 → Int) (items : List Item) (a : Int) :
    itemsLoop oor items (wrap64 a) = wrap64 (a + (items.map (itemPoints oor)).sum) := by
  induction items generalizing a with
  | nil => simp [itemsLoop]
  | cons item rest ih =>
    rw [itemsLoop]
    simp only [List.map_cons, List.sum_cons, itemPoints, len]
    by_cases h : (bytes (TrimSpace item.ShortDescription)).length % 3 = 0
    · have h3 : Int.tmod ((bytes (TrimSpace item.ShortDescription)).length : Int) 3 = 0 := by
        rw [Int.tmod_eq_emod (by omega) (by omega)]; omega
      simp only [h3, h, if_true]
      cases hp : ParseFloat (bytes item.Price) with
      | none => simp [ih]
      | some price =>
        simp only [wrap64_add_left, ih]
        congr 1; ring
    · have h3 : ¬ Int.tmod ((bytes (TrimSpace item.ShortDescription)).length : Int) 3 = 0 := by
        rw [Int.tmod_eq_emod (by omega) (by omega)]; omega
      simp only [h3, h, if_false, ih, zero_add]

theorem sliceBytes_nat (b : List Nat) (lo hi : Nat) (h1 : lo ≤ hi) (h2 : hi ≤ b.length) :
    sliceBytes b (lo : Int) (hi : Int) = some ((b.drop lo).take (hi - lo)) := by
  unfold sliceBytes
  have : (0 : Int) ≤ lo ∧ (lo : Int) ≤ hi ∧ (hi : Int) ≤ (b.length : Int) := by omega
  simp only [this, and_self, if_true, Int.toNat_ofNat]

theorem sliceBytes_tail (b : List Nat) (k : Nat) (h : k ≤ b.length) :
    sliceBytes b ((b.length : Int) - k) (b.length : Int) = some (b.drop (b.length - k)) := by
  have e : ((b.length : Int) - k) = ((b.length - k : Nat) : Int) := by omega
  rw [e, sliceBytes_nat b (b.length - k) b.length (by omega) (by omega)]
  congr 1
  apply List.take_of_length_le
  simp only [List.length_drop]; omega

theorem sliceBytes_from (b : List Nat) (k : Nat) (h : k ≤ b.length) :
    sliceBytes b (k : Int) (b.length : Int) = some (b.drop k) := by
  rw [sliceBytes_nat b k b.length h (by omega)]
  congr 1
  apply List.take_of_length_le
  simp only [List.length_drop]; omega

theorem sliceBytes_take (b : List Nat) (k : Nat) (h : k ≤ b.length) :
    sliceBytes b 0 (k : Int) = some (b.take k) := by
  have := sliceBytes_nat b 0 k (by omega) h
  simpa using this

theorem roundDollarRule_eq (r : Receipt) (a : Int) :
    roundDollarRule r.Total (wrap64 a) = wrap64 (a + roundDollarPoints r) := by
  unfold roundDollarRule roundDollarPoints
  cases ParseFloat (bytes r.Total) with
  | none => simp
  | some total => by_cases h : (Mod total const1).isZero = true <;> simp [h, wrap64_add_left]

theorem quarterRule_eq (r : Receipt) (a : Int) :
    quarterRule r.Total (wrap64 a) = wrap64 (a + quarterPoints r) := by
  unfold quarterRule quarterPoints
  cases ParseFloat (bytes r.Total) with
  | none => simp
  | some total => by_cases h : (Mod total const025).isZero = true <;> simp [h, wrap64_add_left]

theorem pairRule_eq (r : Receipt) :
    Int.tdiv (r.Items.length : Int) 2 * 5 = pairPoints r := by
  unfold pairPoints
  rw [Int.tdiv_eq_ediv (by omega) (by omega)]
  push_cast; ring

theorem tmod_two_ne_zero (v : Int) : Int.tmod v 2 ≠ 0 ↔ v % 2 ≠ 0 := by
  rw [ne_eq, ne_eq, ← Int.dvd_iff_tmod_eq_zero, Int.dvd_iff_emod_eq_zero]

theorem oddDayRule_eq (r : Receipt) (a : Int) :
    oddDayRule r.PurchaseDate (wrap64 a) = some (wrap64 (a + oddDayPoints r)) := by
  unfold oddDayRule oddDayPoints len
  by_cases h : 10 ≤ (bytes r.PurchaseDate).length
  · have h' : ((bytes r.PurchaseDate).length : Int) ≥ 10 := by omega
    have hs := sliceBytes_tail (bytes r.PurchaseDate) 2 (by omega)
    simp only [Nat.cast_ofNat] at hs
    simp only [h, h', if_true, hs, Option.bind_eq_bind, Option.some_bind, Option.pure_def,
      tmod_two_ne_zero]
    split <;> simp [wrap64_add_left]
  · have h' : ¬ ((bytes r.PurchaseDate).length : Int) ≥ 10 := by omega
    simp [h, h']

theorem afternoonRule_eq (r : Receipt) (a : Int) :
    afternoonRule r.PurchaseTime (wrap64 a) = some (wrap64 (a + afternoonPoints r)) := by
  unfold afternoonRule afternoonPoints len
  by_cases h : 5 ≤ (bytes r.PurchaseTime).length
  · have h' : ((bytes r.PurchaseTime).length : Int) ≥ 5 := by omega
    have hs1 := sliceBytes_take (bytes r.PurchaseTime) 2 (by omega)
    have hs2 := sliceBytes_from (bytes r.PurchaseTime) 3 (by omega)
    simp only [Nat.cast_ofNat] at hs1 hs2
    simp only [h, h', if_true, hs1, hs2, Option.bind_eq_bind, Option.some_bind, Option.pure_def,
      ge_iff_le]
    split <;> simp [wrap64_add_left]
  · have h' : ¬ ((bytes r.PurchaseTime).length : Int) ≥ 5 := by omega
    simp [h, h']

theorem calculatePoints_eq (oor : F64 → Int) (r : Receipt) :
    calculatePoints oor r = some (wrap64 (retailerPoints r + roundDollarPoints r
      + quarterPoints r + pairPoints r + descriptionPoints oor r + oddDayPoints r
      + afternoonPoints r)) := by
  unfold calculatePoints
  have h0 : (0 : Int) = wrap64 0 := by unfold wrap64; omega
  have e1 : retailerLoop r.Retailer 0 = wrap64 (retailerPoints r) := by
    rw [h0, retailerLoop_eq]; simp [retailerPoints]
  simp only [e1, roundDollarRule_eq, quarterRule_eq, pairRule_eq, wrap64_add_left, itemsLoop_eq,
    oddDayRule_eq, afternoonRule_eq, Option.bind_eq_bind, Option.some_bind, Option.pure_def,
    descriptionPoints]

theorem byteAt_nat (b : List Nat) (i : Nat) (h : i < b.length) :
    byteAt b (i : Int) = some (b.get ⟨i, h⟩) := by
  unfold byteAt
  simp [List.getElem?_eq_getElem h]

theorem isValidDate_total (date : GoString) : ∃ v, isValidDate date = some v := by
  unfold isValidDate len
  by_cases h : ((bytes date).length : Int) ≠ 10
  · exact ⟨false, by simp [h]⟩
  · have hl : (bytes date).length = 10 := by omega
    have h4 := byteAt_nat (bytes date) 4 (by omega)
    have h7 := byteAt_nat (bytes date) 7 (by omega)
    have s1 := sliceBytes_nat (bytes date) 0 4 (by omega) (by omega)
    have s2 := sliceBytes_nat (bytes date) 5 7 (by omega) (by omega)
    have s3 := sliceBytes_nat (bytes date) 8 10 (by omega) (by omega)
    simp only [Nat.cast_ofNat, Int.Nat.cast_ofNat_Int] at h4 h7 s1 s2 s3
    simp only [h, if_false, h4, h7, s1, s2, s3, Option.bind_eq_bind, Option.some_bind]
    split
    · exact ⟨_, rfl⟩
    · split
      · exact ⟨_, rfl⟩
      · split
        · exact ⟨_, rfl⟩
        · split <;> exact ⟨_, rfl⟩

theorem isValidTime_total (time : GoString) : ∃ v, isValidTime time = some v := by
  unfold isValidTime len
  by_cases h : ((bytes time).length : Int) ≠ 5
  · exact ⟨false, by simp [h]⟩
  · have hl : (bytes time).length = 5 := by omega
    have h2 := byteAt_nat (bytes time) 2 (by omega)
    have s1 := sliceBytes_nat (bytes time) 0 2 (by omega) (by omega)
    have s2 := sliceBytes_nat (bytes time) 3 (bytes time).length (by omega) (by omega)
    simp only [Nat.cast_ofNat, Int.Nat.cast_ofNat_Int] at h2 s1 s2
    simp only [h, if_false, h2, s1, s2, Option.bind_eq_bind, Option.some_bind]
    split
    · exact ⟨_, rfl⟩
    · split
      · exact ⟨_, rfl⟩
      · split <;> exact ⟨_, rfl⟩

theorem validateItemsLoop_eq (items : List Item) :
    validateItemsLoop items
      = (((itemChecks items).find? (fun c => !c.1)).map (fun c => c.2)).map
          (fun reason => httpError reason 400) := by
  induction items with
  | nil => simp [validateItemsLoop, itemChecks]
  | cons item rest ih =>
    unfold itemChecks at ih ⊢
    rw [validateItemsLoop, List.flatMap_cons]
    by_cases h1 : TrimSpace item.ShortDescription = []
    · simp [h1, List.find?_cons]
    · cases h2 : ParseFloat (bytes item.Price) with
      | none => simp [h1, h2, List.find?_cons]
      | some x => simp [h1, h2, List.find?_cons, ih]

theorem processReceiptHandler_post (oor : F64 → Int) (receipts : Store) (r : Receipt)
    (rnd : Option Entropy) :
    processReceiptHandler oor receipts (postReceipt r) rnd =
      match firstFailure r with
      | some reason => some (receipts, httpError reason 400)
      | none =>
        (generateID rnd).bind (fun id => (calculatePoints oor r).bind (fun points =>
          some (receipts.set id points, ⟨200, .id id⟩))) := by
  obtain ⟨vd, hd⟩ := isValidDate_total r.PurchaseDate
  obtain ⟨vt, ht⟩ := isValidTime_total r.PurchaseTime
  have hi := validateItemsLoop_eq r.Items
  unfold processReceiptHandler postReceipt firstFailure validationChecks
  simp only [ne_eq, not_true_eq_false, if_false, hd, ht, Option.bind_eq_bind, Option.some_bind]
  by_cases h1 : TrimSpace r.Retailer = []
  · simp [h1, List.find?_cons]
  · cases vd with
    | false => simp [h1, List.find?_cons]
    | true =>
      cases vt with
      | false => simp [h1, List.find?_cons]
      | true =>
        by_cases h4 : r.Items.length < 1
        · have : ¬ 1 ≤ r.Items.length := by omega
          simp [h1, h4, this, List.find?_cons]
        · have : 1 ≤ r.Items.length := by omega
          have h1' : (TrimSpace r.Retailer).isEmpty = false := by
            cases hT : TrimSpace r.Retailer with
            | nil => exact absurd hT h1
            | cons a l => rfl
          simp only [h1, h4, this, if_false, List.cons_append, List.nil_append, List.find?_cons,
            bne_iff_ne, ne_eq, not_false_eq_true, Bool.not_true, beq_self_eq_true, decide_True,
            Bool.not_eq_true', decide_eq_false_iff_not, not_not, hi]
          simp only [bne, h1, beq_iff_eq, Bool.not_false, Bool.not_true]
          cases hf : List.find? (fun c => !c.1) (itemChecks r.Items) with
          | none => simp [h1']
          | some c => simp [h1']

theorem firstFailure_eq_none_iff (r : Receipt) :
    firstFailure r = none ↔ passesValidation r = true := by
  unfold firstFailure passesValidation
  simp only [Option.map_eq_none', List.find?_eq_none, List.all_eq_true]
  constructor
  · intro h c hc
    have := h c hc
    simpa using this
  · intro h c hc
    simp [h c hc]

theorem firstFailure_retailer (r : Receipt) (h : TrimSpace r.Retailer = []) :
    firstFailure r = some "Invalid receipt: retailer field is required" := by
  unfold firstFailure validationChecks
  simp [h, List.find?_cons]

theorem hextable_getD_mem (i : Fin 16) : hextable.getD i.val '0' ∈ hextable := by
  revert i; decide

theorem EncodeToString_mem (l : List (Fin 256)) : ∀ c ∈ EncodeToString l, c ∈ hextable := by
  induction l with
  | nil => intro c hc; simp [EncodeToString] at hc
  | cons v rest ih =>
    intro c hc
    rw [EncodeToString] at hc
    simp only [List.mem_cons] at hc
    rcases hc with rfl | rfl | hc
    · exact hextable_getD_mem ⟨v.val / 16, by omega⟩
    · exact hextable_getD_mem ⟨v.val % 16, by omega⟩
    · exact ih c hc

theorem EncodeToString_length (l : List (Fin 256)) :
    (EncodeToString l).length = 2 * l.length := by
  induction l with
  | nil => rfl
  | cons v rest ih => rw [EncodeToString]; simp only [List.length_cons, ih]; omega

theorem slash_not_mem_hextable : '/' ∉ hextable := by decide

theorem handleReceipts_getPoints (receipts : Store) (id : GoString)
    (h : HasSuffix id "/".toList = false) :
    handleReceipts receipts (getPoints id) =
      if id = [] then httpError "Invalid receipt ID" 400
      else match receipts id with
        | none => httpError "Receipt not found" 404
        | some points => ⟨200, .points points⟩ := by
  have e1 : TrimPrefix ("/receipts/".toList ++ id ++ "/points".toList) "/receipts/".toList
      = id ++ "/points".toList := by
    unfold TrimPrefix HasPrefix
    have : List.isPrefixOf "/receipts/".toList ("/receipts/".toList ++ id ++ "/points".toList)
        = true := by
      rw [List.isPrefixOf_iff_prefix, List.append_assoc]
      exact List.prefix_append _ _
    rw [if_pos this, List.append_assoc, List.drop_left]
  have e2 : HasSuffix (id ++ "/points".toList) "/points".toList = true := by
    unfold HasSuffix
    rw [List.isSuffixOf_iff_suffix]
    exact List.suffix_append _ _
  have e3 : TrimSuffix (id ++ "/points".toList) "/points".toList = id := by
    unfold TrimSuffix
    rw [if_pos e2]
    simp
  have e4 : TrimSuffix id "/".toList = id := by
    unfold TrimSuffix
    rw [h]; rfl
  unfold handleReceipts getPointsHandler getPoints
  simp only [e1, e2, e3, e4, ne_eq, not_true_eq_false, if_false, if_true]

theorem generated_id_no_slash (l : List (Fin 256)) :
    HasSuffix (EncodeToString l) "/".toList = false := by
  unfold HasSuffix
  rw [Bool.eq_false_iff, ne_eq, List.isSuffixOf_iff_suffix]
  rintro ⟨t, ht⟩
  have hm : '/' ∈ EncodeToString l := by
    rw [← ht]; simp
  exact slash_not_mem_hextable (EncodeToString_mem l _ hm)

theorem Store.set_self (receipts : Store) (id : GoString) (points : Int) :
    (receipts.set id points) id = some points := by
  simp [Store.set]

theorem bitLenAux_spec (fuel n : Nat) (h : n ≤ fuel) :
    n < 2 ^ bitLenAux fuel n ∧ (0 < n → 2 ^ (bitLenAux fuel n - 1) ≤ n) := by
  induction fuel generalizing n with
  | zero =>
    have : n = 0 := by omega
    subst this
    simp [bitLenAux]
  | succ fuel ih =>
    rw [bitLenAux]
    by_cases h0 : n = 0
    · subst h0; simp
    · simp only [h0, if_false]
      have hlt : n / 2 ≤ fuel := by omega
      obtain ⟨h1, h2⟩ := ih (n / 2) hlt
      constructor
      · rw [Nat.add_comm, Nat.pow_succ]; omega
      · intro _
        simp only [Nat.add_sub_cancel_left]
        by_cases h3 : n / 2 = 0
        · have : bitLenAux fuel (n / 2) = 0 := by
            rw [h3]; cases fuel <;> simp [bitLenAux]
          rw [this]; simp; omega
        · have h4 := h2 (by omega)
          have h5 : 0 < bitLenAux fuel (n / 2) := by
            rcases Nat.eq_zero_or_pos (bitLenAux fuel (n / 2)) with h6 | h6
            · rw [h6] at h1; simp at h1; omega
            · exact h6
          have : bitLenAux fuel (n / 2) = (bitLenAux fuel (n / 2) - 1) + 1 := by omega
          rw [this, Nat.pow_succ]; omega

theorem bitLen_spec (n : Nat) :
    n < 2 ^ bitLen n ∧ (0 < n → 2 ^ (bitLen n - 1) ≤ n) :=
  bitLenAux_spec n n (Nat.le_refl n)

theorem roundHalfEven_le (n d B : Nat) (hd : 0 < d) (h : n ≤ d * B) : roundHalfEven n d ≤ B := by
  unfold roundHalfEven
  have hq : n / d ≤ B := by
    calc n / d ≤ d * B / d := Nat.div_le_div_right h
      _ = B := Nat.mul_div_cancel_left B hd
  have hdm := Nat.div_add_mod n d
  by_cases hB : n / d = B
  · have hr : n % d = 0 := by
      have : d * (n / d) = d * B := by rw [hB]
      omega
    simp [hr, hd, hB]
  · have : n / d + 1 ≤ B := by omega
    simp only []
    split
    · omega
    · split
      · omega
      · split <;> omega

theorem bitLen_le_of_le (n d K : Nat) (hn : 0 < n) (h : n ≤ d * 2 ^ K) :
    bitLen n ≤ bitLen d + K := by
  have h1 := (bitLen_spec n).2 hn
  have h2 := (bitLen_spec d).1
  have h3 : 2 ^ (bitLen n - 1) < 2 ^ (bitLen d + K) := by
    calc 2 ^ (bitLen n - 1) ≤ n := h1
      _ ≤ d * 2 ^ K := h
      _ < 2 ^ bitLen d * 2 ^ K := Nat.mul_lt_mul_of_pos_right h2 (Nat.two_pow_pos _)
      _ = 2 ^ (bitLen d + K) := (Nat.pow_add 2 _ _).symm
  have h4 := (Nat.pow_lt_pow_iff_right (by omega : 1 < 2)).1 h3
  omega

theorem floorLog2_le (n d K : Nat) (hn : 0 < n) (h : n ≤ d * 2 ^ K) :
    floorLog2 n d ≤ (K : Int) := by
  have hb := bitLen_le_of_le n d K hn h
  unfold floorLog2
  simp only []
  split <;> split <;> omega

theorem scaleRound_le (n d K : Nat) (e : Int) (hd : 0 < d) (h : n ≤ d * 2 ^ K)
    (he : e ≤ (K : Int)) : scaleRound n d e ≤ 2 ^ ((K : Int) - e).toNat := by
  unfold scaleRound
  by_cases h0 : 0 ≤ e
  · obtain ⟨a, rfl⟩ := Int.eq_ofNat_of_zero_le h0
    have ha : a ≤ K := by omega
    have e1 : ((K : Int) - (a : Int)).toNat = K - a := by omega
    simp only [h0, if_true, Int.toNat_ofNat, e1]
    apply roundHalfEven_le _ _ _ (Nat.mul_pos hd (Nat.two_pow_pos _))
    calc n ≤ d * 2 ^ K := h
      _ = d * 2 ^ (a + (K - a)) := by rw [Nat.add_sub_cancel' ha]
      _ = d * 2 ^ a * 2 ^ (K - a) := by rw [Nat.pow_add, Nat.mul_assoc]
  · obtain ⟨a, rfl⟩ : ∃ a : Nat, e = -(a : Int) := ⟨(-e).toNat, by omega⟩
    have e1 : ((K : Int) - -(a : Int)).toNat = K + a := by omega
    have e2 : (- -(a : Int)).toNat = a := by omega
    simp only [h0, if_false, e1, e2]
    apply roundHalfEven_le _ _ _ hd
    calc n * 2 ^ a ≤ d * 2 ^ K * 2 ^ a := Nat.mul_le_mul_right _ h
      _ = d * 2 ^ (K + a) := by rw [Nat.pow_add, Nat.mul_assoc]

theorem roundF64_le (n d K : Nat) (hn : 0 < n) (hd : 0 < d) (hK : K ≤ 1022)
    (h : n ≤ d * 2 ^ K) :
    ∃ m e, roundF64 false n d = .fin false m e ∧ e ≤ (K : Int)
      ∧ m ≤ 2 ^ ((K : Int) - e).toNat := by
  have hf := floorLog2_le n d K hn h
  have he : max (floorLog2 n d - 52) (-1074) ≤ (K : Int) := by omega
  have hm := scaleRound_le n d K _ hd h he
  unfold roundF64
  have hn0 : n ≠ 0 := by omega
  simp only [hn0, if_false]
  have hov : ¬ (max (floorLog2 n d - 52) (-1074) > 971
      ∨ (max (floorLog2 n d - 52) (-1074) = 971
        ∧ scaleRound n d (max (floorLog2 n d - 52) (-1074)) ≥ 2 ^ 53)) := by omega
  simp only [hov, if_false]
  exact ⟨_, _, rfl, he, hm⟩

theorem toInt_Ceil_nonneg (oor : F64 → Int) (m K : Nat) (e : Int) (hK : K ≤ 62)
    (he : e ≤ (K : Int)) (hm : m ≤ 2 ^ ((K : Int) - e).toNat) :
    0 ≤ (Ceil (.fin false m e)).toInt oor := by
  have hK2 : (2 : Int) ^ K ≤ 2 ^ 62 := by
    exact_mod_cast Nat.pow_le_pow_right (by omega) hK
  unfold Ceil
  by_cases h0 : 0 ≤ e
  · obtain ⟨a, rfl⟩ := Int.eq_ofNat_of_zero_le h0
    have ha : a ≤ K := by omega
    have e1 : ((K : Int) - (a : Int)).toNat = K - a := by omega
    rw [e1] at hm
    have hb : m * 2 ^ a ≤ 2 ^ K := by
      calc m * 2 ^ a ≤ 2 ^ (K - a) * 2 ^ a := Nat.mul_le_mul_right _ hm
        _ = 2 ^ K := by rw [← Nat.pow_add, Nat.sub_add_cancel ha]
    simp only [h0, if_true, F64.toInt, Int.toNat_ofNat, Bool.false_eq_true, if_false]
    generalize m * 2 ^ a = q at hb ⊢
    have hb' : ((q : Nat) : Int) ≤ 2 ^ K := by exact_mod_cast hb
    have hr : -(2 ^ 63 : Int) ≤ ((q : Nat) : Int) ∧ ((q : Nat) : Int) < 2 ^ 63 := by
      constructor <;> omega
    rw [if_pos hr]
    omega
  · obtain ⟨a, rfl⟩ : ∃ a : Nat, e = -(a : Int) := ⟨(-e).toNat, by omega⟩
    have e1 : ((K : Int) - -(a : Int)).toNat = K + a := by omega
    have e2 : (- -(a : Int)).toNat = a := by omega
    rw [e1] at hm
    have hp : 0 < 2 ^ a := Nat.two_pow_pos a
    have hb : (m + 2 ^ a - 1) / 2 ^ a ≤ 2 ^ K := by
      apply Nat.le_of_lt_succ
      rw [Nat.div_lt_iff_lt_mul hp]
      have : 2 ^ (K + a) = 2 ^ K * 2 ^ a := Nat.pow_add 2 K a
      rw [Nat.succ_mul]
      omega
    simp only [h0, if_false, e2, Bool.false_eq_true, F64.toInt, le_refl, if_true,
      Int.toNat_zero, pow_zero, mul_one]
    generalize (m + 2 ^ a - 1) / 2 ^ a = q at hb ⊢
    have hb' : ((q : Nat) : Int) ≤ 2 ^ K := by exact_mod_cast hb
    have hr : -(2 ^ 63 : Int) ≤ ((q : Nat) : Int) ∧ ((q : Nat) : Int) < 2 ^ 63 := by
      constructor <;> omega
    rw [if_pos hr]
    omega

theorem const02_eq : const02 = .fin false 7205759403792794 (-55) := by decide

theorem roundF64_zero (neg : Bool) (d : Nat) : roundF64 neg 0 d = .fin neg 0 0 := by
  simp [roundF64]

theorem roundBin_zero (neg : Bool) (e : Int) : roundBin neg 0 e = .fin neg 0 0 := by
  unfold roundBin
  split <;> simp [roundF64_zero]

theorem toInt_Ceil_zero (oor : F64 → Int) (neg : Bool) :
    (Ceil (.fin neg 0 0)).toInt oor = 0 := by
  cases neg <;> simp [Ceil, F64.toInt]

theorem roundBin_le (m : Nat) (e : Int) (hm : 0 < m)
    (h : F64.leTwoPow 64 (.fin false m e) = true) :
    ∃ m' e', roundBin false (m * 7205759403792794) (e + -55) = .fin false m' e'
      ∧ e' ≤ ((62 : Nat) : Int) ∧ m' ≤ 2 ^ (((62 : Nat) : Int) - e').toNat := by
  unfold F64.leTwoPow at h
  unfold roundBin
  have hM : 7205759403792794 ≤ 2 ^ 53 := by norm_num
  have hP : 0 < m * 7205759403792794 := Nat.mul_pos hm (by norm_num)
  by_cases hE : 0 ≤ e + -55
  · obtain ⟨a, ha⟩ : ∃ a : Nat, e = ((a + 55 : Nat) : Int) := ⟨(e - 55).toNat, by omega⟩
    subst ha
    have h0 : (0 : Int) ≤ ((a + 55 : Nat) : Int) := by omega
    have e1 : (((a + 55 : Nat) : Int) + -55).toNat = a := by omega
    simp only [h0, if_true, Int.toNat_ofNat, decide_eq_true_eq] at h
    simp only [hE, if_true, e1]
    apply roundF64_le _ _ 62 (Nat.mul_pos hP (Nat.two_pow_pos a)) (by omega) (by omega)
    have h2 : m * 2 ^ a * 2 ^ 55 ≤ 2 ^ 64 := by
      rw [Nat.mul_assoc, ← Nat.pow_add]; exact h
    have h3 : m * 2 ^ a ≤ 2 ^ 9 := by
      have : (2 : Nat) ^ 64 = 2 ^ 9 * 2 ^ 55 := by norm_num
      rw [this] at h2
      exact Nat.le_of_mul_le_mul_right h2 (by norm_num)
    calc m * 7205759403792794 * 2 ^ a = m * 2 ^ a * 7205759403792794 := by ring
      _ ≤ 2 ^ 9 * 2 ^ 53 := Nat.mul_le_mul h3 hM
      _ = 1 * 2 ^ 62 := by norm_num
  · simp only [hE, if_false]
    have hpos : 0 < 2 ^ (-(e + -55)).toNat := Nat.two_pow_pos _
    apply roundF64_le _ _ 62 hP hpos (by omega)
    by_cases h0 : 0 ≤ e
    · obtain ⟨a, rfl⟩ := Int.eq_ofNat_of_zero_le h0
      have ha : a ≤ 55 := by omega
      have e1 : (-((a : Int) + -55)).toNat = 55 - a := by omega
      simp only [h0, if_true, Int.toNat_ofNat, decide_eq_true_eq] at h
      rw [e1]
      have h4 : m * 7205759403792794 * 2 ^ a ≤ 2 ^ (55 - a) * 2 ^ 62 * 2 ^ a := by
        calc m * 7205759403792794 * 2 ^ a = m * 2 ^ a * 7205759403792794 := by ring
          _ ≤ 2 ^ 64 * 2 ^ 53 := Nat.mul_le_mul h hM
          _ = 2 ^ 55 * 2 ^ 62 := by norm_num
          _ = 2 ^ (55 - a + a) * 2 ^ 62 := by rw [Nat.sub_add_cancel ha]
          _ = 2 ^ (55 - a) * 2 ^ 62 * 2 ^ a := by rw [Nat.pow_add]; ring
      exact Nat.le_of_mul_le_mul_right h4 (Nat.two_pow_pos a)
    · obtain ⟨a, rfl⟩ : ∃ a : Nat, e = -(a : Int) := ⟨(-e).toNat, by omega⟩
      have e1 : (-(-(a : Int) + -55)).toNat = a + 55 := by omega
      have e2 : (- -(a : Int)).toNat = a := by omega
      simp only [h0, if_false, e2, decide_eq_true_eq] at h
      rw [e1]
      calc m * 7205759403792794 ≤ 2 ^ 64 * 2 ^ a * 2 ^ 53 := Nat.mul_le_mul h hM
        _ = 2 ^ (a + 55) * 2 ^ 62 := by rw [Nat.pow_add]; ring

theorem itemTerm_nonneg (oor : F64 → Int) (x : F64) (h1 : x.nonneg = true)
    (h2 : x.leTwoPow 64 = true) :
    0 ≤ (Ceil (x.mul const02)).toInt oor := by
  rw [const02_eq]
  cases x with
  | nan => simp [F64.nonneg] at h1
  | inf neg => simp [F64.nonneg] at h1
  | fin neg m e =>
    simp only [F64.mul]
    by_cases hm : m = 0
    · subst hm
      rw [Nat.zero_mul, roundBin_zero, toInt_Ceil_zero]
    · have hneg : neg = false := by
        simp only [F64.nonneg, Bool.or_eq_true, Bool.not_eq_true', beq_iff_eq] at h1
        rcases h1 with h | h
        · exact h
        · exact absurd h hm
      subst hneg
      obtain ⟨m', e', hr, he, hm'⟩ := roundBin_le m e (by omega) h2
      have : (false != false) = false := rfl
      rw [this, hr]
      exact toInt_Ceil_nonneg oor m' 62 e' (by omega) he hm'

theorem itemPoints_nonneg (oor : F64 → Int) (item : Item)
    (h : ∀ x, ParseFloat (bytes item.Price) = some x →
      x.nonneg = true ∧ x.leTwoPow 64 = true) :
    0 ≤ itemPoints oor item := by
  unfold itemPoints
  split
  · cases hp : ParseFloat (bytes item.Price) with
    | none => simp
    | some x => exact itemTerm_nonneg oor x (h x hp).1 (h x hp).2
  · exact le_refl _

theorem descriptionPoints_nonneg (oor : F64 → Int) (items : List Item)
    (h : ∀ item ∈ items, ∀ x, ParseFloat (bytes item.Price) = some x →
      x.nonneg = true ∧ x.leTwoPow 64 = true) :
    0 ≤ (items.map (itemPoints oor)).sum := by
  apply List.sum_nonneg
  intro v hv
  obtain ⟨item, hi, rfl⟩ := List.mem_map.1 hv
  exact itemPoints_nonneg oor item (h item hi)

theorem retailerPoints_nonneg (r : Receipt) : 0 ≤ retailerPoints r := by
  unfold retailerPoints; omega

theorem roundDollarPoints_nonneg (r : Receipt) : 0 ≤ roundDollarPoints r := by
  unfold roundDollarPoints
  split
  · split <;> omega
  · omega

theorem quarterPoints_nonneg (r : Receipt) : 0 ≤ quarterPoints r := by
  unfold quarterPoints
  split
  · split <;> omega
  · omega

theorem pairPoints_nonneg (r : Receipt) : 0 ≤ pairPoints r := by
  unfold pairPoints; omega

theorem oddDayPoints_nonneg (r : Receipt) : 0 ≤ oddDayPoints r := by
  unfold oddDayPoints
  simp only []
  split
  · split <;> omega
  · omega

theorem afternoonPoints_nonneg (r : Receipt) : 0 ≤ afternoonPoints r := by
  unfold afternoonPoints
  simp only []
  split
  · split <;> omega
  · omega

theorem isValidTime_true (t : GoString) (h : isValidTime t = some true) :
    (bytes t).length = 5
    ∧ (Atoi ((bytes t).take 2)).err = false ∧ (Atoi ((bytes t).drop 3)).err = false
    ∧ 0 ≤ hourOf t ∧ hourOf t ≤ 23 ∧ 0 ≤ minuteOf t ∧ minuteOf t ≤ 59 := by
  unfold isValidTime len at h
  by_cases hl : ((bytes t).length : Int) ≠ 5
  · simp [hl] at h
  · have hl' : (bytes t).length = 5 := by omega
    have h2 := byteAt_nat (bytes t) 2 (by omega)
    have s1 := sliceBytes_take (bytes t) 2 (by omega)
    have s2 := sliceBytes_from (bytes t) 3 (by omega)
    simp only [Nat.cast_ofNat, Int.Nat.cast_ofNat_Int] at h2 s1 s2
    simp only [hl, if_false, h2, s1, s2, Option.bind_eq_bind, Option.some_bind] at h
    unfold hourOf minuteOf
    split at h
    · cases h
    · split at h
      · cases h
      · split at h
        · cases h
        · rename_i h3 h4
          simp only [Bool.or_eq_true, decide_eq_true_eq, not_or, not_lt, Bool.not_eq_true] at h3 h4
          refine ⟨hl', h3.1, h3.2, ?_, ?_, ?_, ?_⟩ <;> omega

theorem afternoonPoints_of_valid (r : Receipt) (h : isValidTime r.PurchaseTime = some true) :
    afternoonPoints r
      = if hourOf r.PurchaseTime = 14 ∨ hourOf r.PurchaseTime = 15 then 10 else 0 := by
  obtain ⟨hl, e1, e2, h1, h2, h3, h4⟩ := isValidTime_true _ h
  unfold hourOf minuteOf at *
  unfold afternoonPoints
  simp only [hl, e1, e2, true_and, Nat.le_refl, if_true, h3]
  have : (Atoi (List.drop 3 (bytes r.PurchaseTime))).val < 60 := by omega
  simp only [this, and_true]

theorem afternoonPoints_midnight (r : Receipt) :
    afternoonPoints { r with PurchaseTime := "00:00".toList } = 0 := by
  rfl

theorem const1_eq : const1 = .fin false (2 ^ 52) (-52) := by decide

theorem const025_eq : const025 = .fin false (2 ^ 52) (-54) := by decide

theorem two_pow_mul_mod (m a b : Nat) (h : a < b) :
    (m * 2 ^ a) % 2 ^ b = 0 ↔ m % 2 ^ (b - a) = 0 := by
  have hb : 2 ^ b = 2 ^ (b - a) * 2 ^ a := by
    rw [← Nat.pow_add, Nat.sub_add_cancel (Nat.le_of_lt h)]
  rw [← Nat.dvd_iff_mod_eq_zero, ← Nat.dvd_iff_mod_eq_zero, hb]
  exact Nat.mul_dvd_mul_iff_right (Nat.two_pow_pos a)

theorem two_pow_mul_mod_of_le (m a b : Nat) (h : b ≤ a) : (m * 2 ^ a) % 2 ^ b = 0 := by
  have ha : 2 ^ a = 2 ^ (a - b) * 2 ^ b := by
    rw [← Nat.pow_add, Nat.sub_add_cancel h]
  rw [ha, ← Nat.mul_assoc]
  exact Nat.mul_mod_left _ _

theorem Mod_unit_isZero (neg s : Bool) (m : Nat) (e : Int) (k : Nat) :
    (Mod (.fin neg m e) (.fin s (2 ^ 52) (-((52 + k : Nat) : Int)))).isZero
      = F64.isMultiple k (.fin neg m e) := by
  have h52 : (2 : Nat) ^ 52 ≠ 0 := by norm_num
  unfold Mod F64.isMultiple
  simp only [h52, if_false, F64.isZero]
  by_cases h1 : -((52 + k : Nat) : Int) ≤ e
  · have hc : min e (-((52 + k : Nat) : Int)) = -((52 + k : Nat) : Int) := by omega
    obtain ⟨t, ht⟩ : ∃ t : Nat, e = (t : Int) - ((52 + k : Nat) : Int) := ⟨(e + (52 + k : Nat)).toNat, by omega⟩
    subst ht
    have e1 : ((t : Int) - ((52 + k : Nat) : Int) - -((52 + k : Nat) : Int)).toNat = t := by omega
    have e2 : (-((52 + k : Nat) : Int) - -((52 + k : Nat) : Int)).toNat = 0 := by omega
    rw [hc, e1, e2, pow_zero, Nat.mul_one]
    by_cases h2 : -(k : Int) ≤ (t : Int) - ((52 + k : Nat) : Int)
    · have ht52 : 52 ≤ t := by omega
      simp only [h2, if_true, beq_iff_eq]
      exact two_pow_mul_mod_of_le m t 52 ht52
    · have ht52 : t < 52 := by omega
      have e3 : (-((t : Int) - ((52 + k : Nat) : Int))).toNat - k = 52 - t := by omega
      simp only [h2, if_false, e3]
      rw [Bool.eq_iff_iff, beq_iff_eq, beq_iff_eq]
      exact two_pow_mul_mod m t 52 ht52
  · have hc : min e (-((52 + k : Nat) : Int)) = e := by omega
    obtain ⟨a, ha⟩ : ∃ a : Nat, e = -(((a + 1 + 52 + k : Nat)) : Int) := ⟨(-e - 53 - k).toNat, by omega⟩
    subst ha
    have h2 : ¬ (-(k : Int) ≤ -(((a + 1 + 52 + k : Nat)) : Int)) := by omega
    have e1 : (-(((a + 1 + 52 + k : Nat)) : Int) - -(((a + 1 + 52 + k : Nat)) : Int)).toNat = 0 := by omega
    have e2 : (-((52 + k : Nat) : Int) - -(((a + 1 + 52 + k : Nat)) : Int)).toNat = a + 1 := by omega
    have e3 : (- -(((a + 1 + 52 + k : Nat)) : Int)).toNat - k = a + 1 + 52 := by omega
    rw [hc, e1, e2, pow_zero, Nat.mul_one]
    simp only [h2, if_false, e3]
    have : 2 ^ 52 * 2 ^ (a + 1) = 2 ^ (a + 1 + 52) := by rw [← Nat.pow_add]; congr 1; omega
    rw [this]

theorem Mod_const1_isZero (x : F64) : (Mod x const1).isZero = x.isWhole := by
  rw [const1_eq]
  cases x with
  | nan => rfl
  | inf n => rfl
  | fin neg m e => exact Mod_unit_isZero neg false m e 0

theorem Mod_const025_isZero (x : F64) : (Mod x const025).isZero = x.isQuarterMultiple := by
  rw [const025_eq]
  cases x with
  | nan => rfl
  | inf n => rfl
  | fin neg m e => exact Mod_unit_isZero neg false m e 2

theorem isMultiple_mono (x : F64) (j k : Nat) (h : j ≤ k) (hx : x.isMultiple j = true) :
    x.isMultiple k = true := by
  cases x with
  | nan => exact hx
  | inf n => exact hx
  | fin neg m e =>
    unfold F64.isMultiple at hx ⊢
    by_cases h1 : -(k : Int) ≤ e
    · simp [h1]
    · have h2 : ¬ (-(j : Int) ≤ e) := by omega
      simp only [h2, if_false, beq_iff_eq] at hx
      simp only [h1, if_false, beq_iff_eq]
      have hd : 2 ^ ((-e).toNat - k) ∣ 2 ^ ((-e).toNat - j) :=
        Nat.pow_dvd_pow 2 (by omega)
      exact Nat.mod_eq_zero_of_dvd (Nat.dvd_trans hd (Nat.dvd_of_mod_eq_zero hx))

theorem wrap64_add_of_lt (S c : Int) (hc : 0 ≤ c) (h : wrap64 S + c < 2 ^ 63) :
    wrap64 (S + c) = wrap64 S + c := by
  have hr := wrap64_range S
  rw [← wrap64_add_left, wrap64_of_range _ (by omega) h]

theorem oddDayPoints_eq (r : Receipt) :
    oddDayPoints r = if lastTwoOdd r.PurchaseDate then 6 else 0 := by
  unfold oddDayPoints lastTwoOdd lastTwoBytes
  simp only []
  by_cases h : 10 ≤ (bytes r.PurchaseDate).length
  · simp only [h, if_true, decide_True, Bool.true_and, Bool.and_eq_true, Bool.not_eq_true',
      decide_eq_true_eq]
    have : ∀ v : Int, v % 2 ≠ 0 ↔ v % 2 = 1 := by intro v; omega
    simp only [this]
  · simp [h]

theorem oddDayRule_spec (date : GoString) (points : Int) :
    oddDayRule date points
      = some (if lastTwoOdd date then wrap64 (points + 6) else points) := by
  unfold oddDayRule lastTwoOdd lastTwoBytes len
  by_cases h : 10 ≤ (bytes date).length
  · have h' : ((bytes date).length : Int) ≥ 10 := by omega
    have hs := sliceBytes_tail (bytes date) 2 (by omega)
    simp only [Nat.cast_ofNat] at hs
    have : ∀ v : Int, v % 2 ≠ 0 ↔ v % 2 = 1 := by intro v; omega
    simp only [h, h', if_true, hs, Option.bind_eq_bind, Option.some_bind, Option.pure_def,
      tmod_two_ne_zero, decide_True, Bool.true_and, Bool.and_eq_true, Bool.not_eq_true',
      decide_eq_true_eq, this]
  · have h' : ¬ ((bytes date).length : Int) ≥ 10 := by omega
    simp [h, h']

theorem isValidDate_true (d : GoString) (h : isValidDate d = some true) :
    (bytes d).length = 10 ∧ (Atoi (((bytes d).drop 8).take 2)).err = false
      ∧ 1 ≤ dayOf d ∧ dayOf d ≤ 31 := by
  unfold isValidDate len at h
  by_cases hl : ((bytes d).length : Int) ≠ 10
  · simp [hl] at h
  · have hl' : (bytes d).length = 10 := by omega
    have h4 := byteAt_nat (bytes d) 4 (by omega)
    have h7 := byteAt_nat (bytes d) 7 (by omega)
    have s1 := sliceBytes_nat (bytes d) 0 4 (by omega) (by omega)
    have s2 := sliceBytes_nat (bytes d) 5 7 (by omega) (by omega)
    have s3 := sliceBytes_nat (bytes d) 8 10 (by omega) (by omega)
    simp only [Nat.cast_ofNat, Int.Nat.cast_ofNat_Int] at h4 h7 s1 s2 s3
    simp only [hl, if_false, h4, h7, s1, s2, s3, Option.bind_eq_bind, Option.some_bind] at h
    have e10 : (10 : Nat) - 8 = 2 := rfl
    rw [e10] at h
    unfold dayOf
    split at h
    · cases h
    · split at h
      · cases h
      · split at h
        · cases h
        · split at h
          · cases h
          · rename_i h3 h4
            simp only [Bool.or_eq_true, decide_eq_true_eq, not_or, not_lt, Bool.not_eq_true]
              at h3 h4
            refine ⟨hl', h3.2, ?_, ?_⟩ <;> omega

theorem lastTwoOdd_of_valid (d : GoString) (h : isValidDate d = some true) :
    lastTwoOdd d = true ↔ dayOf d % 2 = 1 := by
  obtain ⟨hl, he, _, _⟩ := isValidDate_true d h
  have e1 : lastTwoBytes d = ((bytes d).drop 8).take 2 := by
    unfold lastTwoBytes
    rw [hl]
    symm
    apply List.take_of_length_le
    simp only [List.length_drop]; omega
  unfold lastTwoOdd dayOf
  rw [e1, he, hl]
  simp

theorem nat_ceil_div (m d : Nat) (hd : 0 < d) :
    ⌈(m : ℚ) / (d : ℚ)⌉ = (((m + d - 1) / d : Nat) : Int) := by
  rw [Int.ceil_eq_iff]
  have hd' : (0 : ℚ) < (d : ℚ) := by exact_mod_cast hd
  have h1 := Nat.div_add_mod (m + d - 1) d
  have h2 := Nat.mod_lt (m + d - 1) hd
  generalize (m + d - 1) / d = q at h1 ⊢
  generalize (m + d - 1) % d = t at h1 h2
  generalize hP : d * q = P at h1
  have hP' : (d : ℚ) * (q : ℚ) = (P : ℚ) := by exact_mod_cast congrArg (Nat.cast : ℕ → ℚ) hP
  have a1 : (P : ℚ) + 1 ≤ (m : ℚ) + (d : ℚ) := by
    have : P + 1 ≤ m + d := by omega
    exact_mod_cast this
  have a2 : (m : ℚ) ≤ (P : ℚ) := by
    have : m ≤ P := by omega
    exact_mod_cast this
  constructor
  · rw [lt_div_iff₀ hd']
    push_cast
    nlinarith
  · rw [div_le_iff₀ hd']
    push_cast
    nlinarith

theorem toInt_Ceil_eq_ceil (oor : F64 → Int) (neg : Bool) (m : Nat) (e : Int)
    (h1 : -(2 ^ 63) ≤ ⌈(F64.fin neg m e).toRat⌉) (h2 : ⌈(F64.fin neg m e).toRat⌉ < 2 ^ 63) :
    (Ceil (.fin neg m e)).toInt oor = ⌈(F64.fin neg m e).toRat⌉ := by
  unfold F64.toRat at h1 h2 ⊢
  unfold Ceil
  by_cases h0 : 0 ≤ e
  · simp only [h0, if_true] at h1 h2 ⊢
    cases neg with
    | false =>
      simp only [Bool.false_eq_true, if_false, Int.ceil_natCast] at h1 h2 ⊢
      simp only [F64.toInt, h0, if_true, Bool.false_eq_true, if_false]
      rw [if_pos ⟨h1, h2⟩]
    | true =>
      simp only [if_true, Int.ceil_neg, Int.floor_natCast] at h1 h2 ⊢
      simp only [F64.toInt, h0, if_true]
      rw [if_pos ⟨h1, h2⟩]
  · have hp : 0 < 2 ^ (-e).toNat := Nat.two_pow_pos _
    simp only [h0, if_false] at h1 h2 ⊢
    cases neg with
    | false =>
      simp only [Bool.false_eq_true, if_false] at h1 h2 ⊢
      rw [nat_ceil_div m _ hp] at h1 h2 ⊢
      simp only [F64.toInt, le_refl, if_true, Int.toNat_zero, pow_zero, mul_one,
        Bool.false_eq_true, if_false]
      rw [if_pos ⟨h1, h2⟩]
    | true =>
      simp only [if_true, Int.ceil_neg, Rat.floor_natCast_div_natCast] at h1 h2 ⊢
      simp only [F64.toInt, le_refl, if_true, Int.toNat_zero, pow_zero, mul_one]
      rw [← Int.natCast_div] at h1 h2 ⊢
      rw [if_pos ⟨h1, h2⟩]

theorem rat_div_isInt (m d : Nat) (hd : 0 < d) :
    (∃ j : ℤ, (m : ℚ) / (d : ℚ) = (j : ℚ)) ↔ d ∣ m := by
  have hd' : (d : ℚ) ≠ 0 := by exact_mod_cast (Nat.pos_iff_ne_zero.1 hd)
  constructor
  · rintro ⟨j, hj⟩
    rw [div_eq_iff hd'] at hj
    have hj' : (m : ℤ) = j * (d : ℤ) := by exact_mod_cast hj
    have : (d : ℤ) ∣ (m : ℤ) := ⟨j, by rw [hj', mul_comm]⟩
    exact Int.natCast_dvd_natCast.1 this
  · rintro ⟨c, rfl⟩
    refine ⟨(c : ℤ), ?_⟩
    push_cast
    field_simp

theorem neg_isInt (q : ℚ) : (∃ j : ℤ, -q = (j : ℚ)) ↔ ∃ j : ℤ, q = (j : ℚ) := by
  constructor
  · rintro ⟨j, hj⟩
    exact ⟨-j, by push_cast; linarith⟩
  · rintro ⟨j, hj⟩
    exact ⟨-j, by push_cast; linarith⟩

theorem isMultiple_iff (neg : Bool) (m : Nat) (e : Int) (k : Nat) :
    F64.isMultiple k (.fin neg m e) = true
      ↔ ∃ j : ℤ, (F64.fin neg m e).toRat * (2 : ℚ) ^ k = (j : ℚ) := by
  have key : F64.isMultiple k (.fin neg m e) = true
      ↔ ∃ j : ℤ, (F64.fin false m e).toRat * (2 : ℚ) ^ k = (j : ℚ) := by
    unfold F64.isMultiple F64.toRat
    simp only [Bool.false_eq_true, if_false]
    by_cases h0 : 0 ≤ e
    · have h1 : -(k : Int) ≤ e := by omega
      simp only [h0, h1, if_true, true_iff]
      exact ⟨((m * 2 ^ e.toNat * 2 ^ k : Nat) : ℤ), by push_cast; ring⟩
    · simp only [h0, if_false]
      obtain ⟨a, ha⟩ : ∃ a : Nat, e = -(a : Int) := ⟨(-e).toNat, by omega⟩
      subst ha
      have e2 : (- -(a : Int)).toNat = a := by omega
      rw [e2]
      by_cases h1 : -(k : Int) ≤ -(a : Int)
      · have hak : a ≤ k := by omega
        simp only [h1, if_true, true_iff]
        refine ⟨((m * 2 ^ (k - a) : Nat) : ℤ), ?_⟩
        have : (2 : ℚ) ^ k = 2 ^ (k - a) * 2 ^ a := by
          rw [← pow_add, Nat.sub_add_cancel hak]
        rw [this]
        push_cast
        field_simp
        ring
      · have hak : k < a := by omega
        simp only [h1, if_false, beq_iff_eq]
        have hp : 0 < 2 ^ (a - k) := Nat.two_pow_pos _
        rw [← Nat.dvd_iff_mod_eq_zero, ← rat_div_isInt m _ hp]
        have : (m : ℚ) / ((2 ^ a : Nat) : ℚ) * 2 ^ k = (m : ℚ) / ((2 ^ (a - k) : Nat) : ℚ) := by
          have h2 : (2 : ℚ) ^ a = 2 ^ (a - k) * 2 ^ k := by
            rw [← pow_add, Nat.sub_add_cancel (Nat.le_of_lt hak)]
          push_cast
          rw [h2]
          field_simp
          ring
        rw [this]
  rw [key]
  cases neg with
  | false => rfl
  | true =>
    have : (F64.fin true m e).toRat = -(F64.fin false m e).toRat := by
      simp [F64.toRat]
    rw [this, neg_mul, neg_isInt]

theorem totalPoints_eq (r : Receipt) :
    roundDollarPoints r + quarterPoints r = totalPoints r.Total := by
  unfold roundDollarPoints quarterPoints totalPoints
  cases ParseFloat (bytes r.Total) with
  | none => rfl
  | some x => simp only [Mod_const1_isZero, Mod_const025_isZero]

theorem totalPoints_range (total : GoString) : 0 ≤ totalPoints total ∧ totalPoints total ≤ 75 := by
  unfold totalPoints
  split
  · split <;> split <;> omega
  · omega

theorem totalPoints_nil : totalPoints [] = 0 := by decide

theorem totalRules_eq (total : GoString) (a : Int) :
    quarterRule total (roundDollarRule total (wrap64 a)) = wrap64 (a + totalPoints total) := by
  have h1 := roundDollarRule_eq ⟨[], [], [], [], total⟩ a
  have h2 := quarterRule_eq ⟨[], [], [], [], total⟩
    (a + roundDollarPoints ⟨[], [], [], [], total⟩)
  have h3 := totalPoints_eq ⟨[], [], [], [], total⟩
  simp only [] at h1 h2 h3
  rw [h1, h2, Int.add_assoc, h3]

theorem lastTwoOdd_nil : lastTwoOdd [] = false := by decide

theorem toInt_Ceil_eq_ceilInt (oor : F64 → Int) (y : F64) :
    (Ceil y).toInt oor = ceilInt oor y := by
  cases y with
  | nan => rfl
  | inf neg => rfl
  | fin neg m e =>
    unfold ceilInt
    simp only []
    by_cases hr : -(2 ^ 63) ≤ ⌈(F64.fin neg m e).toRat⌉ ∧ ⌈(F64.fin neg m e).toRat⌉ < 2 ^ 63
    · rw [if_pos hr]
      exact toInt_Ceil_eq_ceil oor neg m e hr.1 hr.2
    · rw [if_neg hr]
      unfold F64.toRat at hr
      unfold Ceil
      by_cases h0 : 0 ≤ e
      · simp only [h0, if_true] at hr ⊢
        cases neg with
        | false =>
          simp only [Bool.false_eq_true, if_false, Int.ceil_natCast] at hr ⊢
          simp only [F64.toInt, h0, if_true, Bool.false_eq_true, if_false]
          rw [if_neg hr]
        | true =>
          simp only [if_true, Int.ceil_neg, Int.floor_natCast] at hr ⊢
          simp only [F64.toInt, h0, if_true]
          rw [if_neg hr]
      · have hp : 0 < 2 ^ (-e).toNat := Nat.two_pow_pos _
        simp only [h0, if_false] at hr ⊢
        cases neg with
        | false =>
          simp only [Bool.false_eq_true, if_false] at hr ⊢
          rw [nat_ceil_div m _ hp] at hr
          simp only [F64.toInt, le_refl, if_true, Int.toNat_zero, pow_zero, mul_one,
            Bool.false_eq_true, if_false]
          rw [if_neg hr]
        | true =>
          simp only [if_true, Int.ceil_neg, Rat.floor_natCast_div_natCast] at hr ⊢
          simp only [F64.toInt, le_refl, if_true, Int.toNat_zero, pow_zero, mul_one]
          rw [← Int.natCast_div] at hr
          rw [if_neg hr]

theorem itemPoints_eq (oor : F64 → Int) (item : Item) :
    itemPoints oor item = if countedItem item then priceTerm oor item else 0 := by
  unfold itemPoints countedItem priceTerm
  rw [TrimSpace_eq_trimWhite]
  simp only [beq_iff_eq, toInt_Ceil_eq_ceilInt]

theorem descriptionPoints_eq (oor : F64 → Int) (items : List Item) :
    (items.map (itemPoints oor)).sum = ((items.filter countedItem).map (priceTerm oor)).sum := by
  induction items with
  | nil => rfl
  | cons item rest ih =>
    rw [List.map_cons, List.sum_cons, ih, itemPoints_eq]
    by_cases h : countedItem item = true
    · rw [List.filter_cons_of_pos h, List.map_cons, List.sum_cons, if_pos h]
    · rw [List.filter_cons_of_neg h, if_neg h, zero_add]

theorem ParseFloat_nil : ParseFloat [] = none := by decide

theorem itemPoints_withoutPrice (oor : F64 → Int) (item : Item) :
    itemPoints oor item.withoutPrice = 0 := by
  unfold itemPoints Item.withoutPrice
  have : bytes ([] : GoString) = [] := rfl
  simp only [this, ParseFloat_nil]
  split <;> rfl

theorem descriptionPoints_withoutPrice (oor : F64 → Int) (items : List Item) :
    ((items.map Item.withoutPrice).map (itemPoints oor)).sum = 0 := by
  apply List.sum_eq_zero
  intro v hv
  obtain ⟨item, hi, rfl⟩ := List.mem_map.1 hv
  obtain ⟨item', _, rfl⟩ := List.mem_map.1 hi
  exact itemPoints_withoutPrice oor item'

theorem priceTerm_eq_ceil (oor : F64 → Int) (item : Item) (price : F64) (neg : Bool) (m : Nat)
    (e : Int) (hp : ParseFloat (bytes item.Price) = some price)
    (hm : price.mul const02 = .fin neg m e)
    (h1 : -(2 ^ 63) ≤ ⌈(F64.fin neg m e).toRat⌉) (h2 : ⌈(F64.fin neg m e).toRat⌉ < 2 ^ 63) :
    priceTerm oor item = ⌈(F64.fin neg m e).toRat⌉ := by
  unfold priceTerm
  rw [hp]
  simp only []
  rw [hm, ← toInt_Ceil_eq_ceilInt]
  exact toInt_Ceil_eq_ceil oor neg m e h1 h2

theorem itemsLoop_of_unparsed (oor : F64 → Int) (items : List Item) (p : Int)
    (h : ∀ item ∈ items, ParseFloat (bytes item.Price) = none) : itemsLoop oor items p = p := by
  induction items generalizing p with
  | nil => rfl
  | cons item rest ih =>
    rw [itemsLoop]
    have h1 := h item (List.mem_cons_self _ _)
    simp only [h1]
    have h2 := ih p (fun it hit => h it (List.mem_cons_of_mem _ hit))
    split <;> exact h2

theorem Atoi_err_val (s : List Nat) (hl : s.length < 19) (he : (Atoi s).err = true) :
    (Atoi s).val = 0 := by
  unfold Atoi at he ⊢
  cases s with
  | nil => rfl
  | cons c0 rest =>
    simp only [hl, if_true] at he ⊢
    by_cases h1 : ((c0 == 45 || c0 == 43) && rest.isEmpty) = true
    · simp only [h1, if_true]
    · simp only [h1, if_false] at he ⊢
      cases h2 : atoiFastLoop (if (c0 == 45 || c0 == 43) = true then rest else c0 :: rest) 0 with
      | none => rfl
      | some n => rw [h2] at he; cases he

theorem roundDollarRule_of_unparsed (total : GoString) (p : Int)
    (h : ParseFloat (bytes total) = none) : roundDollarRule total p = p := by
  unfold roundDollarRule; rw [h]

theorem quarterRule_of_unparsed (total : GoString) (p : Int)
    (h : ParseFloat (bytes total) = none) : quarterRule total p = p := by
  unfold quarterRule; rw [h]

theorem oddDayRule_of_unparsed (date : GoString) (p : Int)
    (h : (Atoi (lastTwoBytes date)).err = true) : oddDayRule date p = some p := by
  rw [oddDayRule_spec]
  unfold lastTwoOdd
  simp [h]

theorem afternoonRule_spec (time : GoString) (p : Int) :
    afternoonRule time p
      = some (if 5 ≤ (bytes time).length
            ∧ (((Atoi ((bytes time).take 2)).err = false ∧ (Atoi ((bytes time).drop 3)).err = false
                ∧ hourOf time = 14 ∧ 0 ≤ minuteOf time)
              ∨ (hourOf time = 15 ∧ minuteOf time < 60))
          then wrap64 (p + 10) else p) := by
  unfold afternoonRule len hourOf minuteOf
  by_cases h : 5 ≤ (bytes time).length
  · have h' : ((bytes time).length : Int) ≥ 5 := by omega
    have hs1 := sliceBytes_take (bytes time) 2 (by omega)
    have hs2 := sliceBytes_from (bytes time) 3 (by omega)
    simp only [Nat.cast_ofNat] at hs1 hs2
    simp only [h, h', if_true, hs1, hs2, Option.bind_eq_bind, Option.some_bind, Option.pure_def,
      ge_iff_le, true_and]
  · have h' : ¬ ((bytes time).length : Int) ≥ 5 := by omega
    simp [h, h']

theorem afternoonRule_of_unparsed_hour (time : GoString) (p : Int)
    (h : (Atoi ((bytes time).take 2)).err = true) : afternoonRule time p = some p := by
  have hv : hourOf time = 0 :=
    Atoi_err_val _ (by rw [List.length_take]; omega) h
  rw [afternoonRule_spec, hv, h]
  simp

theorem roundDollarRule_fires (total : GoString) (p : Int) :
    roundDollarRule total p = if roundDollarFires total then wrap64 (p + 50) else p := by
  unfold roundDollarRule roundDollarFires
  cases ParseFloat (bytes total) with
  | none => rfl
  | some x => rfl

theorem quarterRule_fires (total : GoString) (p : Int) :
    quarterRule total p = if quarterFires total then wrap64 (p + 25) else p := by
  unfold quarterRule quarterFires
  cases ParseFloat (bytes total) with
  | none => rfl
  | some x => rfl

theorem Mod_const1_imp_const025 (x : F64) (h : (Mod x const1).isZero = true) :
    (Mod x const025).isZero = true := by
  rw [Mod_const1_isZero] at h
  rw [Mod_const025_isZero]
  exact isMultiple_mono x 0 2 (by omega) h

theorem totalPoints_values (total : GoString) :
    totalPoints total = 0 ∨ totalPoints total = 25 ∨ totalPoints total = 75 := by
  unfold totalPoints
  cases ParseFloat (bytes total) with
  | none => exact Or.inl rfl
  | some x =>
    simp only []
    by_cases h1 : x.isWhole = true
    · have h2 : x.isQuarterMultiple = true := isMultiple_mono x 0 2 (by omega) h1
      simp [h1, h2]
    · by_cases h2 : x.isQuarterMultiple = true <;> simp [h1, h2]

theorem utf8EncodeRune_lt (c : Char) : ∀ x ∈ utf8EncodeRune c.toNat, x < 256 := by
  have hv : c.toNat < 0x110000 := by
    have := c.valid
    unfold Char.toNat
    rcases this with h | h
    · have : c.val.toNat < 0xd800 := h
      omega
    · exact h.2
  intro x hx
  unfold utf8EncodeRune at hx
  generalize c.toNat = n at hv hx
  split at hx
  · simp only [List.mem_singleton] at hx; omega
  · split at hx
    · simp only [List.mem_cons, List.mem_singleton, List.not_mem_nil, or_false] at hx; omega
    · split at hx
      · simp only [List.mem_cons, List.mem_singleton, List.not_mem_nil, or_false] at hx; omega
      · simp only [List.mem_cons, List.mem_singleton, List.not_mem_nil, or_false] at hx; omega

theorem bytes_lt (s : GoString) : ∀ x ∈ bytes s, x < 256 := by
  intro x hx
  unfold bytes at hx
  rw [List.mem_flatMap] at hx
  obtain ⟨c, _, hc⟩ := hx
  exact utf8EncodeRune_lt c x hc

theorem utf8EncodeRune_head (n x : Nat) (xs : List Nat) (h : utf8EncodeRune n = x :: xs)
    (hx : x < 128) : n = x ∧ xs = [] := by
  unfold utf8EncodeRune at h
  split at h
  · simp only [List.cons.injEq] at h
    exact ⟨h.1, h.2.symm⟩
  · split at h
    · simp only [List.cons.injEq] at h; omega
    · split at h
      · simp only [List.cons.injEq] at h; omega
      · simp only [List.cons.injEq] at h; omega

theorem bytes_cons (c : Char) (s : GoString) :
    bytes (c :: s) = utf8EncodeRune c.toNat ++ bytes s := by
  unfold bytes
  rw [List.flatMap_cons]

theorem bytes_head_ascii (s : GoString) (x : Nat) (rest : List Nat) (h : bytes s = x :: rest)
    (hx : x < 128) : ∃ c t, s = c :: t ∧ c.toNat = x ∧ bytes t = rest := by
  cases s with
  | nil => cases h
  | cons c t =>
    rw [bytes_cons] at h
    cases he : utf8EncodeRune c.toNat with
    | nil =>
      exfalso
      unfold utf8EncodeRune at he
      split at he
      · cases he
      · split at he
        · cases he
        · split at he <;> cases he
    | cons y ys =>
      rw [he] at h
      simp only [List.cons_append, List.cons.injEq] at h
      obtain ⟨h1, h2⟩ := h
      subst h1
      obtain ⟨e1, e2⟩ := utf8EncodeRune_head _ _ _ he hx
      subst e2
      exact ⟨c, t, rfl, e1, by simpa using h2⟩

theorem byteSub_digit (x : Nat) (hx : x < 256) :
    (byteSub x 48 > 9 ↔ ¬ (48 ≤ x ∧ x ≤ 57)) ∧ (48 ≤ x → byteSub x 48 = x - 48) := by
  unfold byteSub
  omega

theorem atoiFastLoop_one (b : Nat) (hb : b < 256) :
    atoiFastLoop [b] 0 = if 48 ≤ b ∧ b ≤ 57 then some (b - 48) else none := by
  obtain ⟨k1, k2⟩ := byteSub_digit b hb
  simp only [atoiFastLoop]
  by_cases h : 48 ≤ b ∧ b ≤ 57
  · have n1 : ¬ byteSub b 48 > 9 := fun hh => (k1.1 hh) h
    rw [if_pos h, if_neg n1, k2 h.1]
    congr 1; omega
  · rw [if_neg h, if_pos (k1.2 h)]

theorem atoiFastLoop_two (a b : Nat) (ha : a < 256) (hb : b < 256) :
    atoiFastLoop [a, b] 0
      = if 48 ≤ a ∧ a ≤ 57 ∧ 48 ≤ b ∧ b ≤ 57 then some (10 * (a - 48) + (b - 48)) else none := by
  obtain ⟨k1, k2⟩ := byteSub_digit a ha
  obtain ⟨k3, k4⟩ := byteSub_digit b hb
  simp only [atoiFastLoop]
  by_cases h1 : 48 ≤ a ∧ a ≤ 57
  · have n1 : ¬ byteSub a 48 > 9 := fun hh => (k1.1 hh) h1
    by_cases h2 : 48 ≤ b ∧ b ≤ 57
    · have n2 : ¬ byteSub b 48 > 9 := fun hh => (k3.1 hh) h2
      have hc : 48 ≤ a ∧ a ≤ 57 ∧ 48 ≤ b ∧ b ≤ 57 := ⟨h1.1, h1.2, h2.1, h2.2⟩
      rw [if_pos hc, if_neg n1, if_neg n2, k2 h1.1, k4 h2.1]
      congr 1; omega
    · have hc : ¬ (48 ≤ a ∧ a ≤ 57 ∧ 48 ≤ b ∧ b ≤ 57) := fun hh => h2 ⟨hh.2.2.1, hh.2.2.2⟩
      rw [if_neg hc, if_neg n1, if_pos (k3.2 h2)]
  · have hc : ¬ (48 ≤ a ∧ a ≤ 57 ∧ 48 ≤ b ∧ b ≤ 57) := fun hh => h1 ⟨hh.1, hh.2.1⟩
    rw [if_neg hc, if_pos (k1.2 h1)]

theorem Atoi_two (a b : Nat) (ha : a < 256) (hb : b < 256) (he : (Atoi [a, b]).err = false)
    (hv : 10 ≤ (Atoi [a, b]).val) :
    48 ≤ a ∧ a ≤ 57 ∧ 48 ≤ b ∧ b ≤ 57
      ∧ (Atoi [a, b]).val = 10 * ((a : Int) - 48) + ((b : Int) - 48) := by
  unfold Atoi at he hv ⊢
  simp only [List.length_cons, List.length_nil, Nat.reduceAdd, Nat.reduceLT, if_true,
    List.isEmpty_cons, Bool.and_false, Bool.false_eq_true, if_false] at he hv ⊢
  by_cases hs : (a == 45 || a == 43) = true
  · exfalso
    simp only [hs, if_true, atoiFastLoop_one b hb] at he hv
    by_cases h2 : 48 ≤ b ∧ b ≤ 57
    · simp only [h2, and_self, if_true] at hv
      split at hv <;> omega
    · simp only [h2, if_false] at he
      cases he
  · have hs' : ¬ a = 45 := by
      simp only [Bool.or_eq_true, beq_iff_eq, not_or] at hs
      exact hs.1
    simp only [hs, if_false, atoiFastLoop_two a b ha hb, Bool.false_eq_true] at he hv ⊢
    by_cases h2 : 48 ≤ a ∧ a ≤ 57 ∧ 48 ≤ b ∧ b ≤ 57
    · simp only [h2, and_self, if_true, hs', if_false]
      refine ⟨trivial, trivial, trivial, trivial, ?_⟩
      omega
    · simp only [h2, if_false] at he
      cases he

theorem char_eq_of_toNat (c : Char) (n : Nat) (h : c.toNat = n) : c = Char.ofNat n := by
  rw [← h, Char.ofNat_toNat]

theorem hourIs14or15_iff (t : GoString) (h : isValidTime t = some true) :
    hourIs14or15 t = true ↔ hourOf t = 14 ∨ hourOf t = 15 := by
  obtain ⟨hl, e1, _, _, _, _, _⟩ := isValidTime_true t h
  constructor
  · intro ht
    unfold hourIs14or15 at ht
    simp only [Bool.or_eq_true, beq_iff_eq] at ht
    unfold hourOf
    rcases ht with ht | ht
    · left
      obtain ⟨rest, hr⟩ : ∃ rest, t = '1' :: '4' :: rest := by
        match t, ht with
        | c0 :: c1 :: rest, ht =>
          simp only [List.take_succ_cons, List.take_zero] at ht
          exact ⟨rest, by rw [show c0 :: c1 :: rest = [c0, c1] ++ rest from rfl, ht]; rfl⟩
      subst hr
      rfl
    · right
      obtain ⟨rest, hr⟩ : ∃ rest, t = '1' :: '5' :: rest := by
        match t, ht with
        | c0 :: c1 :: rest, ht =>
          simp only [List.take_succ_cons, List.take_zero] at ht
          exact ⟨rest, by rw [show c0 :: c1 :: rest = [c0, c1] ++ rest from rfl, ht]; rfl⟩
      subst hr
      rfl
  · intro hh
    have hlt := bytes_lt t
    obtain ⟨a, b, rest, hb⟩ : ∃ a b rest, bytes t = a :: b :: rest := by
      match hbt : bytes t, hl with
      | a :: b :: rest, _ => exact ⟨a, b, rest, rfl⟩
    have ha256 : a < 256 := hlt a (by rw [hb]; simp)
    have hb256 : b < 256 := hlt b (by rw [hb]; simp)
    unfold hourOf at hh
    rw [hb] at e1 hh
    simp only [List.take_succ_cons, List.take_zero] at e1 hh
    obtain ⟨a1, a2, b1, b2, hv⟩ := Atoi_two a b ha256 hb256 e1 (by omega)
    obtain ⟨c0, t1, ht0, hc0, hb1⟩ := bytes_head_ascii t a (b :: rest) hb (by omega)
    obtain ⟨c1, t2, ht1, hc1, _⟩ := bytes_head_ascii t1 b rest hb1 (by omega)
    subst ht0 ht1
    unfold hourIs14or15
    simp only [List.take_succ_cons, List.take_zero, Bool.or_eq_true, beq_iff_eq]
    rw [hv] at hh
    rcases hh with hh | hh
    · left
      have ea : a = 49 := by omega
      have eb : b = 52 := by omega
      rw [char_eq_of_toNat c0 49 (by omega), char_eq_of_toNat c1 52 (by omega)]
      rfl
    · right
      have ea : a = 49 := by omega
      have eb : b = 53 := by omega
      rw [char_eq_of_toNat c0 49 (by omega), char_eq_of_toNat c1 53 (by omega)]
      rfl

theorem not_blank_eq (s : GoString) : (TrimSpace s != []) = !isBlank s := by
  by_cases h : TrimSpace s = []
  · have := (TrimSpace_eq_nil_iff s).1 h
    simp [h, this]
  · have : isBlank s = false := by
      rw [← Bool.not_eq_true]
      exact fun hh => h ((TrimSpace_eq_nil_iff s).2 hh)
    simp [h, this]

theorem orderedChecks_eq (r : Receipt) : orderedChecks r = validationChecks r := by
  unfold orderedChecks validationChecks itemChecks
  simp only [not_blank_eq]
  have : (!r.Items.isEmpty) = decide (1 ≤ r.Items.length) := by
    cases r.Items with
    | nil => rfl
    | cons a l => simp
  rw [this]

theorem firstFailing_eq (r : Receipt) : firstFailing r = firstFailure r := by
  unfold firstFailing firstFailure
  rw [orderedChecks_eq]

theorem firstFailing_blank_retailer (r : Receipt) (h : isBlank r.Retailer = true) :
    firstFailing r = some "Invalid receipt: retailer field is required" := by
  unfold firstFailing orderedChecks
  simp [h, List.find?_cons]

theorem afternoonPoints_split (r : Receipt) :
    afternoonPoints r = (if timeBonusSpec r.PurchaseTime then 10 else 0)
      + (if afternoonSlip r.PurchaseTime then 10 else 0) := by
  unfold afternoonPoints timeBonusSpec afternoonSlip hourOf minuteOf
  simp only []
  by_cases hl : 5 ≤ (bytes r.PurchaseTime).length
  · have hv : (Atoi ((bytes r.PurchaseTime).take 2)).err = true →
        (Atoi ((bytes r.PurchaseTime).take 2)).val = 0 :=
      Atoi_err_val _ (by rw [List.length_take]; omega)
    generalize Atoi ((bytes r.PurchaseTime).take 2) = hour at hv
    generalize Atoi ((bytes r.PurchaseTime).drop 3) = minute
    obtain ⟨hval, herr⟩ := hour
    obtain ⟨mval, merr⟩ := minute
    simp only [hl, if_true, decide_True, Bool.true_and]
    cases herr <;> cases merr <;>
      simp only [Bool.false_eq_true, false_and, true_and, and_true, and_false, Bool.not_true,
        Bool.not_false, Bool.true_and, Bool.false_and, Bool.and_eq_true, Bool.or_eq_true,
        beq_iff_eq, decide_eq_true_eq, false_or, or_false, if_false, reduceCtorEq] <;>
      simp only [] at hv
    · split <;> simp
    · by_cases h1 : hval = 15 ∧ mval < 60 <;> simp [h1]
    · have h0 := hv trivial
      subst h0
      simp
    · have h0 := hv trivial
      subst h0
      simp
  · simp [hl]

theorem afternoonSlip_of_valid (t : GoString) (h : isValidTime t = some true) :
    afternoonSlip t = false := by
  obtain ⟨_, _, e2, _⟩ := isValidTime_true t h
  unfold afternoonSlip
  rw [e2]
  simp

theorem calculatePoints_eq_sum (oor : F64 → Int) (r : Receipt) :
    calculatePoints oor r = some (wrap64 (sumOfContributions oor r
      + if afternoonSlip r.PurchaseTime then 10 else 0)) := by
  rw [calculatePoints_eq]
  have e1 : roundDollarPoints r = wholeDollarPoints r.Total := by
    unfold roundDollarPoints wholeDollarPoints
    cases ParseFloat (bytes r.Total) with
    | none => rfl
    | some x => simp only [Mod_const1_isZero]
  have e2 : quarterPoints r = quarterMultiplePoints r.Total := by
    unfold quarterPoints quarterMultiplePoints
    cases ParseFloat (bytes r.Total) with
    | none => rfl
    | some x => simp only [Mod_const025_isZero]
  have e3 : descriptionPoints oor r = ((r.Items.filter countedItem).map (priceTerm oor)).sum :=
    descriptionPoints_eq oor r.Items
  rw [e1, e2, e3, oddDayPoints_eq, afternoonPoints_split]
  unfold sumOfContributions retailerPoints pairPoints
  congr 2
  ring

theorem stripTrailing_spec (u : List Char) :
    ∃ r, u = stripTrailing u ++ r ∧ r.all isWhiteSpace = true
      ∧ (∀ c, (stripTrailing u).getLast? = some c → isWhiteSpace c = false)
      ∧ (stripTrailing u ≠ [] → (stripTrailing u).head? = u.head?) := by
  induction u with
  | nil => exact ⟨[], rfl, rfl, (fun c h => by cases h), fun _ => rfl⟩
  | cons c cs ih =>
    obtain ⟨r0, h1, h2, h3, _⟩ := ih
    rw [stripTrailing]
    cases hs : stripTrailing cs with
    | nil =>
      rw [hs, List.nil_append] at h1
      subst h1
      by_cases hc : isWhiteSpace c = true
      · refine ⟨c :: cs, ?_, ?_, ?_, ?_⟩
        · simp [hc]
        · simp [hc, h2]
        · intro x hx; simp [hc] at hx
        · intro hn; simp [hc] at hn
      · refine ⟨cs, ?_, h2, ?_, ?_⟩
        · simp [hc]
        · intro x hx
          simp only [hc, Bool.false_eq_true, if_false, List.getLast?_singleton,
            Option.some.injEq] at hx
          subst hx
          simpa using hc
        · intro _; simp [hc]
    | cons x xs =>
      rw [hs] at h1 h3
      refine ⟨r0, ?_, h2, ?_, ?_⟩
      · simp only [List.cons_append]
        rw [h1]
        rfl
      · intro y hy
        apply h3 y
        rw [← hy, List.getLast?_cons_cons]
      · intro _; rfl

theorem trimWhite_spec (s : GoString) :
    ∃ l r, s = l ++ trimWhite s ++ r ∧ isBlank l = true ∧ isBlank r = true
      ∧ (∀ c, (trimWhite s).head? = some c → isWhiteSpace c = false)
      ∧ (∀ c, (trimWhite s).getLast? = some c → isWhiteSpace c = false) := by
  obtain ⟨r, h1, h2, h3, h4⟩ := stripTrailing_spec (s.dropWhile isWhiteSpace)
  refine ⟨s.takeWhile isWhiteSpace, r, ?_, ?_, h2, ?_, h3⟩
  · unfold trimWhite
    rw [List.append_assoc, ← h1, List.takeWhile_append_dropWhile]
  · unfold isBlank
    rw [List.all_eq_true]
    intro c hc
    exact List.mem_takeWhile_imp hc
  · intro c hc
    unfold trimWhite at hc
    have hne : stripTrailing (s.dropWhile isWhiteSpace) ≠ [] := by
      intro h0; rw [h0] at hc; cases hc
    rw [h4 hne] at hc
    have hne2 : s.dropWhile isWhiteSpace ≠ [] := by
      intro h0; rw [h0] at hc; cases hc
    have := List.head_dropWhile_not isWhiteSpace s hne2
    rw [List.head?_eq_head hne2] at hc
    simp only [Option.some.injEq] at hc
    rw [hc] at this
    simpa using this

theorem ceil_pizza : ⌈(F64.fin false 5516909543528858 (-51)).toRat⌉ = 3 := by
  unfold F64.toRat
  have e : (-(-51 : Int)).toNat = 51 := rfl
  simp only [Bool.false_eq_true, if_false, e]
  rw [Int.ceil_eq_iff]
  norm_num

theorem ceil_negative : ⌈(F64.fin true 6755399441055744 (-52)).toRat⌉ = -1 := by
  unfold F64.toRat
  have e : (-(-52 : Int)).toNat = 52 := rfl
  simp only [if_true, e]
  rw [Int.ceil_eq_iff]
  norm_num

set_option maxRecDepth 100000 in
theorem priceTerm_pizza (oor : F64 → Int) :
    priceTerm oor ⟨"Emils Cheese Pizza".toList, "12.25".toList⟩ = 3 := by
  have h := priceTerm_eq_ceil oor ⟨"Emils Cheese Pizza".toList, "12.25".toList⟩
    (.fin false 6896136929411072 (-49)) false 5516909543528858 (-51)
  rw [ceil_pizza] at h
  exact h (by decide) (by decide) (by norm_num) (by norm_num)

set_option maxRecDepth 100000 in
theorem priceTerm_negative (oor : F64 → Int) :
    priceTerm oor ⟨"abc".toList, "-7.5".toList⟩ = -1 := by
  have h := priceTerm_eq_ceil oor ⟨"abc".toList, "-7.5".toList⟩
    (.fin true 8444249301319680 (-50)) true 6755399441055744 (-52)
  rw [ceil_negative] at h
  exact h (by decide) (by decide) (by norm_num) (by norm_num)

/-! ## The claims -/

/-- C1 (as amended). For every receipt that passes all validation checks of
`processReceiptHandler`, if every item price parses to a number between 0 and `2^64` and the
seven contributions sum to less than `2^63` (no overflow of the 64-bit `int`), then
`calculatePoints` returns a non-negative integer. -/
theorem calculatePoints_nonneg (oor : F64 → Int) (r : Receipt)
    (_hv : passesValidation r = true)
    (hp : ∀ item ∈ r.Items, ∀ x, ParseFloat (bytes item.Price) = some x →
      x.nonneg = true ∧ x.leTwoPow 64 = true)
    (hs : retailerPoints r + roundDollarPoints r + quarterPoints r + pairPoints r
      + descriptionPoints oor r + oddDayPoints r + afternoonPoints r < 2 ^ 63) :
    ∃ v, calculatePoints oor r = some v ∧ 0 ≤ v := by
  have h1 := retailerPoints_nonneg r
  have h2 := roundDollarPoints_nonneg r
  have h3 := quarterPoints_nonneg r
  have h4 := pairPoints_nonneg r
  have h5 : 0 ≤ descriptionPoints oor r := descriptionPoints_nonneg oor r.Items hp
  have h6 := oddDayPoints_nonneg r
  have h7 := afternoonPoints_nonneg r
  refine ⟨_, calculatePoints_eq oor r, ?_⟩
  rw [wrap64_of_range _ (by omega) hs]
  omega

set_option maxRecDepth 100000 in
/-- Witness of C1 (as amended): the receipt of the first scenario of the specification meets
the three hypotheses, and its score is non-negative. -/
theorem calculatePoints_nonneg_witness :
    passesValidation targetReceipt = true
    ∧ (∀ item ∈ targetReceipt.Items, ∀ x, ParseFloat (bytes item.Price) = some x →
        x.nonneg = true ∧ x.leTwoPow 64 = true)
    ∧ retailerPoints targetReceipt + roundDollarPoints targetReceipt
        + quarterPoints targetReceipt + pairPoints targetReceipt
        + descriptionPoints (fun _ => 0) targetReceipt + oddDayPoints targetReceipt
        + afternoonPoints targetReceipt < 2 ^ 63
    ∧ ∃ v, calculatePoints (fun _ => 0) targetReceipt = some v ∧ 0 ≤ v :=
  have hp : ∀ item ∈ targetReceipt.Items, ∀ x, ParseFloat (bytes item.Price) = some x →
      x.nonneg = true ∧ x.leTwoPow 64 = true := by decide
  ⟨by decide, hp, by decide,
    calculatePoints_nonneg (fun _ => 0) targetReceipt (by decide) hp (by decide)⟩

set_option maxRecDepth 100000 in
/-- Counterexample to C1 as stated: the receipt with retailer `X`, date `2022-01-02`, time
`10:00`, total `9.99` and the single item `Gum` at `-100.00` passes every validation check,
and `calculatePoints` returns `-19` for it (1 for the retailer, `ceil (-100 * 0.2) = -20` for
the item). -/
theorem calculatePoints_negative :
    passesValidation negativePriceReceipt = true
    ∧ ∀ oor, calculatePoints oor negativePriceReceipt = some (-19) :=
  ⟨by decide, fun _ => rfl⟩

set_option maxRecDepth 100000 in
/-- C2 (what holds, and the code at the failing input). For every receipt `calculatePoints`
returns, in the arithmetic of Go's 64-bit `int`, the sum of the seven contributions of the
specification, each computed on its own (one per ASCII alphanumeric character of the retailer,
50 for a whole-dollar total, 25 for a total that is a multiple of 0.25, 5 per pair of items,
the ceiling of `price * 0.2` per item whose trimmed description has a length that is a
multiple of 3, 6 for an odd day, 10 for the afternoon window), plus 10 more at the times
where rule 7 of the code departs from the specification: hour 15 with a minute that does not
parse.  At every other time, those accepted by `isValidTime` among them, the score is the sum
of the seven contributions, and the plain sum whenever that fits `int`.  The two receipts of
the specification score 12 and 98, a receipt to which rules 4 and 5 contribute scores
`6 + 10 + 3 + 3 + 6 = 28`, and one with a whole-dollar total in the afternoon scores
`14 + 50 + 25 + 10 + 10 = 109`.  At `15:xx` the afternoon window contributes nothing and the
seven contributions sum to 12, yet `calculatePoints` returns 22. -/
theorem calculatePoints_sum_of_contributions (oor : F64 → Int) (r : Receipt) :
    calculatePoints oor r = some (wrap64 (sumOfContributions oor r
      + if afternoonSlip r.PurchaseTime then 10 else 0))
    ∧ (afternoonSlip r.PurchaseTime = false →
        calculatePoints oor r = some (wrap64 (sumOfContributions oor r)))
    ∧ (afternoonSlip r.PurchaseTime = false →
        -(2 ^ 63) ≤ sumOfContributions oor r → sumOfContributions oor r < 2 ^ 63 →
        calculatePoints oor r = some (sumOfContributions oor r))
    ∧ (isValidTime r.PurchaseTime = some true → afternoonSlip r.PurchaseTime = false)
    ∧ calculatePoints oor targetReceipt = some 12
    ∧ calculatePoints oor walmartReceipt = some 98
    ∧ calculatePoints oor fiveItemReceipt = some 28
    ∧ calculatePoints oor cornerMarketReceipt = some 109
    ∧ calculatePoints oor { fiveItemReceipt with Items := [] } = some 12
    ∧ calculatePoints oor { fiveItemReceipt with Items := fiveItemReceipt.Items.take 4 }
        = some 25
    ∧ calculatePoints oor { cornerMarketReceipt with Total := "9.25".toList } = some 59
    ∧ calculatePoints oor { cornerMarketReceipt with PurchaseDate := "2022-03-21".toList }
        = some 115
    ∧ sumOfContributions oor targetReceipt = 12
    ∧ sumOfContributions oor walmartReceipt = 98
    ∧ sumOfContributions oor cornerMarketReceipt = 109
    ∧ timeBonusSpec "15:xx".toList = false
    ∧ afternoonSlip "15:xx".toList = true
    ∧ sumOfContributions oor { targetReceipt with PurchaseTime := "15:xx".toList } = 12
    ∧ calculatePoints oor { targetReceipt with PurchaseTime := "15:xx".toList } = some 22 := by
  have hs := calculatePoints_eq_sum oor r
  refine ⟨hs, ?_, ?_, afternoonSlip_of_valid r.PurchaseTime, rfl, rfl, rfl, rfl, rfl, rfl, rfl,
    rfl, rfl, rfl, rfl, by decide, by decide, rfl, rfl⟩
  · intro h
    rw [hs, h]
    simp
  · intro h h1 h2
    rw [hs, h]
    simp only [Bool.false_eq_true, if_false, add_zero]
    rw [wrap64_of_range _ h1 h2]

set_option maxRecDepth 100000 in
/-- C3. For every decoded receipt (posted with method `POST` and JSON content type, random
bytes being available), `processReceiptHandler` answers 200 exactly when no validation check
fails, and otherwise answers 400 with the reason of the first failing check in the order:
retailer not blank, purchaseDate valid, purchaseTime valid, items not empty, then each item in
sequence order (description not blank before price parses), blank meaning that the text holds
white space only.  A receipt with a blank retailer is rejected with the retailer reason
whatever else is wrong with it, an empty items list included.  The instances run the handler
on receipts with white space for retailer or description, and on receipts that fail several
checks at once. -/
theorem processReceiptHandler_first_failure (oor : F64 → Int) (receipts : Store) (r : Receipt)
    (b : Entropy) :
    (∃ receipts' resp,
      processReceiptHandler oor receipts (postReceipt r) (some b) = some (receipts', resp)
      ∧ (resp.status = 200 ↔ firstFailing r = none)
      ∧ (∀ reason, firstFailing r = some reason → resp = httpError reason 400)
      ∧ (isBlank r.Retailer = true →
          resp = httpError "Invalid receipt: retailer field is required" 400))
    ∧ processReceiptHandler oor receipts (postReceipt ⟨[], [], [], [], []⟩) (some b)
        = some (receipts, httpError "Invalid receipt: retailer field is required" 400)
    ∧ processReceiptHandler oor receipts (postReceipt ⟨" ".toList, [], [], [], []⟩) (some b)
        = some (receipts, httpError "Invalid receipt: retailer field is required" 400)
    ∧ processReceiptHandler oor receipts
          (postReceipt { targetReceipt with Retailer := " \t\n\r".toList, Items := [] })
          (some b)
        = some (receipts, httpError "Invalid receipt: retailer field is required" 400)
    ∧ processReceiptHandler oor receipts
          (postReceipt { targetReceipt with Retailer := "\u00a0\u3000".toList }) (some b)
        = some (receipts, httpError "Invalid receipt: retailer field is required" 400)
    ∧ processReceiptHandler oor receipts
          (postReceipt { targetReceipt with
            PurchaseDate := "01-01-2022".toList, PurchaseTime := "1301".toList, Items := [] })
          (some b)
        = some (receipts, httpError "Invalid purchaseDate. Expected format: YYYY-MM-DD" 400)
    ∧ processReceiptHandler oor receipts
          (postReceipt { targetReceipt with PurchaseTime := "1301".toList, Items := [] })
          (some b)
        = some (receipts, httpError "Invalid purchaseTime. Expected format: HH:MM" 400)
    ∧ processReceiptHandler oor receipts
          (postReceipt { targetReceipt with Items := [] }) (some b)
        = some (receipts,
            httpError "Invalid receipt: items list must contain at least one item" 400)
    ∧ processReceiptHandler oor receipts
          (postReceipt { targetReceipt with Items := [⟨"  ".toList, "x".toList⟩] }) (some b)
        = some (receipts,
            httpError "Invalid receipt: all items must have a valid shortDescription" 400)
    ∧ processReceiptHandler oor receipts
          (postReceipt { targetReceipt with
            Items := [⟨"Gum".toList, "x".toList⟩, ⟨" ".toList, "1.00".toList⟩] }) (some b)
        = some (receipts,
            httpError "Invalid receipt: all items must have a valid price in the format '0.00'"
              400)
    ∧ processReceiptHandler oor receipts
          (postReceipt { targetReceipt with
            Items := [⟨"Gum".toList, "1.00".toList⟩, ⟨"\t".toList, "x".toList⟩] }) (some b)
        = some (receipts,
            httpError "Invalid receipt: all items must have a valid shortDescription" 400)
    ∧ (processReceiptHandler oor receipts (postReceipt targetReceipt) (some b)).map
          (fun x => x.2.status) = some 200
    ∧ (processReceiptHandler oor receipts
          (postReceipt { targetReceipt with
            Retailer := " T ".toList, Items := [⟨" Gum\n".toList, "1.00".toList⟩] })
          (some b)).map
          (fun x => x.2.status) = some 200
    ∧ (processReceiptHandler oor receipts
          (postReceipt { targetReceipt with Retailer := "\u200b".toList }) (some b)).map
          (fun x => x.2.status) = some 200
    ∧ isBlank " \t\n\u000b\u000c\r\u0085\u00a0\u1680\u2000\u200a".toList = true
    ∧ isBlank "\u2028\u2029\u202f\u205f\u3000".toList = true
    ∧ isBlank "\u200b".toList = false
    ∧ isBlank " a ".toList = false := by
  refine ⟨?_, rfl, rfl, rfl, rfl, rfl, rfl, rfl, rfl, rfl, rfl, rfl, rfl, rfl,
    by decide, by decide, by decide, by decide⟩
  rw [processReceiptHandler_post, ← firstFailing_eq]
  cases hf : firstFailing r with
  | none =>
    obtain ⟨p, hc⟩ : ∃ p, calculatePoints oor r = some p := ⟨_, calculatePoints_eq oor r⟩
    refine ⟨receipts.set (EncodeToString b.val) p, ⟨200, .id (EncodeToString b.val)⟩,
      ?_, ?_, ?_, ?_⟩
    · simp [generateID, hc]
    · simp
    · intro reason h; cases h
    · intro h1
      rw [firstFailing_blank_retailer r h1] at hf
      cases hf
  | some reason =>
    refine ⟨receipts, httpError reason 400, rfl, ?_, ?_, ?_⟩
    · simp [httpError]
    · intro reason' h
      cases h; rfl
    · intro h1
      rw [firstFailing_blank_retailer r h1] at hf
      cases hf; rfl

/-- C4. For every store state and every receipt that fails a validation check,
`processReceiptHandler` answers 400 with a text reason, issues no identifier, and leaves the
identifier-to-score map exactly as it was; this does not depend on the random source. -/
theorem processReceiptHandler_rejects (oor : F64 → Int) (receipts : Store) (r : Receipt)
    (rnd : Option Entropy) (h : passesValidation r = false) :
    ∃ msg, processReceiptHandler oor receipts (postReceipt r) rnd
      = some (receipts, ⟨400, .text msg⟩) := by
  rw [processReceiptHandler_post]
  cases hf : firstFailure r with
  | none =>
    rw [(firstFailure_eq_none_iff r).1 hf] at h
    cases h
  | some reason => exact ⟨reason.toList, rfl⟩

set_option maxRecDepth 100000 in
/-- Witness of C4: the receipt without retailer of `main_test.go` fails validation and is
answered 400, the store staying empty. -/
theorem processReceiptHandler_rejects_witness :
    passesValidation missingRetailerReceipt = false
    ∧ ∃ msg, processReceiptHandler (fun _ => 0) emptyStore (postReceipt missingRetailerReceipt)
        none = some (emptyStore, ⟨400, .text msg⟩) :=
  ⟨by decide, processReceiptHandler_rejects (fun _ => 0) emptyStore missingRetailerReceipt none
    (by decide)⟩

/-- C5. Round trip: for every store state, every valid receipt and every sixteen random bytes,
`processReceiptHandler` stores the receipt's score under a fresh identifier `id` of 32
hexadecimal characters, after which `GET /receipts/{id}/points` through `handleReceipts`
answers 200 with points equal to `calculatePoints receipt`; more generally, in every store
that holds a score under `id` the lookup returns exactly that score. -/
theorem store_round_trip (oor : F64 → Int) (receipts : Store) (r : Receipt) (b : Entropy)
    (h : passesValidation r = true) :
    ∃ id points,
      processReceiptHandler oor receipts (postReceipt r) (some b)
        = some (receipts.set id points, ⟨200, .id id⟩)
      ∧ id.length = 32 ∧ (∀ c ∈ id, c ∈ hextable)
      ∧ calculatePoints oor r = some points
      ∧ handleReceipts (receipts.set id points) (getPoints id) = ⟨200, .points points⟩
      ∧ ∀ (s : Store) (score : Int), s id = some score →
          handleReceipts s (getPoints id) = ⟨200, .points score⟩ := by
  have hf := (firstFailure_eq_none_iff r).2 h
  have hlen : (EncodeToString b.val).length = 32 := by
    rw [EncodeToString_length, b.property]
  have hne : EncodeToString b.val ≠ [] := by
    intro h0; rw [h0] at hlen; cases hlen
  have hget : ∀ (s : Store) (score : Int), s (EncodeToString b.val) = some score →
      handleReceipts s (getPoints (EncodeToString b.val)) = ⟨200, .points score⟩ := by
    intro s score hs
    rw [handleReceipts_getPoints s _ (generated_id_no_slash b.val), if_neg hne, hs]
  obtain ⟨p, hc⟩ : ∃ p, calculatePoints oor r = some p := ⟨_, calculatePoints_eq oor r⟩
  refine ⟨EncodeToString b.val, p, ?_, hlen, EncodeToString_mem b.val, hc,
    hget _ _ (Store.set_self _ _ _), hget⟩
  rw [processReceiptHandler_post, hf]
  simp [generateID, hc]

set_option maxRecDepth 100000 in
/-- Witness of C5: the round trip of the first receipt of the specification, from the empty
store and sixteen zero bytes. -/
theorem store_round_trip_witness :
    passesValidation targetReceipt = true
    ∧ ∃ id points,
      processReceiptHandler (fun _ => 0) emptyStore (postReceipt targetReceipt) (some zeroEntropy)
        = some (emptyStore.set id points, ⟨200, .id id⟩)
      ∧ id.length = 32 ∧ (∀ c ∈ id, c ∈ hextable)
      ∧ calculatePoints (fun _ => 0) targetReceipt = some points
      ∧ handleReceipts (emptyStore.set id points) (getPoints id) = ⟨200, .points points⟩
      ∧ ∀ (s : Store) (score : Int), s id = some score →
          handleReceipts s (getPoints id) = ⟨200, .points score⟩ :=
  ⟨by decide, store_round_trip (fun _ => 0) emptyStore targetReceipt zeroEntropy (by decide)⟩

/-- C6 (as amended). For every store state and every identifier that is not empty, has no
trailing slash and is not a key of the store, `GET /receipts/{identifier}/points` through
`handleReceipts` yields not-found (status 404). -/
theorem handleReceipts_unknown_id (receipts : Store) (id : GoString) (hne : id ≠ [])
    (hs : HasSuffix id "/".toList = false) (h : receipts id = none) :
    handleReceipts receipts (getPoints id) = httpError "Receipt not found" 404 := by
  rw [handleReceipts_getPoints receipts id hs, if_neg hne, h]

/-- Witness of C6 (as amended): the identifier `invalid-id` of `main_test.go` and the empty
store. -/
theorem handleReceipts_unknown_id_witness :
    "invalid-id".toList ≠ [] ∧ HasSuffix "invalid-id".toList "/".toList = false
    ∧ emptyStore "invalid-id".toList = none
    ∧ handleReceipts emptyStore (getPoints "invalid-id".toList)
        = httpError "Receipt not found" 404 :=
  ⟨by decide, by decide, rfl,
    handleReceipts_unknown_id emptyStore "invalid-id".toList (by decide) (by decide) rfl⟩

/-- Counterexample to C6 as stated: the empty identifier is not a key of the empty store, and
`GET /receipts//points` is answered 400 (invalid receipt ID), not 404. -/
theorem handleReceipts_empty_id :
    emptyStore [] = none
    ∧ handleReceipts emptyStore (getPoints []) = httpError "Invalid receipt ID" 400 := by
  decide

/-- C7 (the code at the failing input). `isValidDate` accepts `2022-+1-+1` and `+001-01-01`,
which are not of the form `YYYY-MM-DD` with decimal digits only: `strconv.Atoi` reads a sign.
As the claim says, `2022-02-31` is accepted and `01-01-2022` is rejected. -/
theorem isValidDate_accepts_signed_fields :
    isValidDate "2022-+1-+1".toList = some true
    ∧ wellFormedDate "2022-+1-+1".toList = false
    ∧ isValidDate "+001-01-01".toList = some true
    ∧ wellFormedDate "+001-01-01".toList = false
    ∧ isValidDate "2022-02-31".toList = some true
    ∧ wellFormedDate "2022-02-31".toList = true
    ∧ isValidDate "01-01-2022".toList = some false := by
  decide

/-- C8 (the code at the failing input). `isValidTime` accepts `+9:+5` and `-0:-0`, which are
not of the form `HH:MM` with decimal digits only: `strconv.Atoi` reads a sign. -/
theorem isValidTime_accepts_signed_fields :
    isValidTime "+9:+5".toList = some true
    ∧ wellFormedTime "+9:+5".toList = false
    ∧ isValidTime "-0:-0".toList = some true
    ∧ wellFormedTime "-0:-0".toList = false
    ∧ isValidTime "13:01".toList = some true
    ∧ wellFormedTime "13:01".toList = true := by
  decide

set_option maxRecDepth 100000 in
/-- C9. For every purchaseTime accepted by `isValidTime`, `calculatePoints` adds the 10-point
afternoon bonus exactly when the hour is 14 or 15, that is when the time is written `14:MM` or
`15:MM`, for any minute: the score of a receipt with that time is the score of the same
receipt with time `00:00` plus 10 in that case and plus 0 otherwise, the addition being that
of Go's 64-bit `int` (the plain sum whenever the score at `00:00` plus 10 does not overflow).
The second receipt of the specification scores 88 at `00:00`, `13:59`, `16:00`, `04:15` and
`23:14`, and 98 at `14:00`, `14:59`, `15:00`, `15:30` and `15:59`. -/
theorem afternoon_bonus (oor : F64 → Int) (r : Receipt) (t : GoString)
    (h : isValidTime t = some true) :
    (∃ p0, calculatePoints oor { r with PurchaseTime := "00:00".toList } = some p0
      ∧ calculatePoints oor { r with PurchaseTime := t }
          = some (wrap64 (p0 + if hourIs14or15 t then 10 else 0))
      ∧ (p0 + 10 < 2 ^ 63 → calculatePoints oor { r with PurchaseTime := t }
          = some (p0 + if hourIs14or15 t then 10 else 0)))
    ∧ (hourIs14or15 t = true ↔ hourOf t = 14 ∨ hourOf t = 15)
    ∧ calculatePoints oor { walmartReceipt with PurchaseTime := "00:00".toList } = some 88
    ∧ calculatePoints oor { walmartReceipt with PurchaseTime := "13:59".toList } = some 88
    ∧ calculatePoints oor { walmartReceipt with PurchaseTime := "14:00".toList } = some 98
    ∧ calculatePoints oor { walmartReceipt with PurchaseTime := "14:59".toList } = some 98
    ∧ calculatePoints oor { walmartReceipt with PurchaseTime := "15:00".toList } = some 98
    ∧ calculatePoints oor { walmartReceipt with PurchaseTime := "15:30".toList } = some 98
    ∧ calculatePoints oor { walmartReceipt with PurchaseTime := "15:59".toList } = some 98
    ∧ calculatePoints oor { walmartReceipt with PurchaseTime := "16:00".toList } = some 88
    ∧ calculatePoints oor { walmartReceipt with PurchaseTime := "04:15".toList } = some 88
    ∧ calculatePoints oor { walmartReceipt with PurchaseTime := "23:14".toList } = some 88
    ∧ hourOf "14:00".toList = 14 ∧ hourOf "15:59".toList = 15
    ∧ hourOf "13:59".toList = 13 ∧ hourOf "16:00".toList = 16 := by
  refine ⟨?_, hourIs14or15_iff t h, rfl, rfl, rfl, rfl, rfl, rfl, rfl, rfl, rfl, rfl,
    by decide, by decide, by decide, by decide⟩
  have ht : afternoonPoints { r with PurchaseTime := t }
      = if hourIs14or15 t then 10 else 0 := by
    rw [afternoonPoints_of_valid { r with PurchaseTime := t } h]
    have hi := hourIs14or15_iff t h
    by_cases hb : hourIs14or15 t = true
    · rw [if_pos (hi.1 hb), if_pos hb]
    · rw [if_neg (fun hh => hb (hi.2 hh)), if_neg hb]
  have e0 : calculatePoints oor { r with PurchaseTime := "00:00".toList }
      = some (wrap64 (retailerPoints r + roundDollarPoints r + quarterPoints r + pairPoints r
        + descriptionPoints oor r + oddDayPoints r)) := by
    rw [calculatePoints_eq, afternoonPoints_midnight, add_zero]; rfl
  have e1 : calculatePoints oor { r with PurchaseTime := t }
      = some (wrap64 (retailerPoints r + roundDollarPoints r + quarterPoints r + pairPoints r
        + descriptionPoints oor r + oddDayPoints r
        + if hourIs14or15 t then 10 else 0)) := by
    rw [calculatePoints_eq, ht]; rfl
  have hr := wrap64_range (retailerPoints r + roundDollarPoints r + quarterPoints r
    + pairPoints r + descriptionPoints oor r + oddDayPoints r)
  refine ⟨_, e0, ?_, ?_⟩
  · rw [e1, wrap64_add_left]
  · intro hlt
    rw [e1, ← wrap64_of_range (wrap64 _ + _) (by split <;> omega) (by split <;> omega),
      wrap64_add_left]

set_option maxRecDepth 100000 in
/-- Witness of C9: the time `15:30` is accepted by `isValidTime` and is written with hour 15;
the second receipt of the specification scores 88 at `00:00` and 98 at `15:30`. -/
theorem afternoon_bonus_witness :
    isValidTime "15:30".toList = some true
    ∧ hourIs14or15 "15:30".toList = true
    ∧ calculatePoints (fun _ => 0) { walmartReceipt with PurchaseTime := "00:00".toList }
        = some 88
    ∧ calculatePoints (fun _ => 0) { walmartReceipt with PurchaseTime := "15:30".toList }
        = some 98
    ∧ ∃ p0, calculatePoints (fun _ => 0) { walmartReceipt with PurchaseTime := "00:00".toList }
        = some p0
      ∧ calculatePoints (fun _ => 0) { walmartReceipt with PurchaseTime := "15:30".toList }
          = some (wrap64 (p0 + if hourIs14or15 "15:30".toList then 10 else 0))
      ∧ (p0 + 10 < 2 ^ 63 →
          calculatePoints (fun _ => 0) { walmartReceipt with PurchaseTime := "15:30".toList }
            = some (p0 + if hourIs14or15 "15:30".toList then 10 else 0)) :=
  ⟨by decide, by decide, by decide, by decide,
    (afternoon_bonus (fun _ => 0) walmartReceipt "15:30".toList (by decide)).1⟩

set_option maxRecDepth 100000 in
/-- C10 (the code at the failing input). The time `14:00` is accepted by `isValidTime` and is
not strictly later than 14:00, yet `calculatePoints` adds the 10-point bonus: the first
receipt of the specification scores 12 at `00:00` and 22 at `14:00`. -/
theorem bonus_at_two_pm_sharp :
    isValidTime "14:00".toList = some true
    ∧ strictlyBetween2And4 (hourOf "14:00".toList) (minuteOf "14:00".toList) = false
    ∧ (∀ oor, calculatePoints oor { targetReceipt with PurchaseTime := "00:00".toList }
        = some 12)
    ∧ (∀ oor, calculatePoints oor { targetReceipt with PurchaseTime := "14:00".toList }
        = some 22) :=
  ⟨by decide, by decide, fun _ => rfl, fun _ => rfl⟩

/-- C11. The odd-day contribution of `calculatePoints` is 6 exactly when the purchaseDate
string has length (in bytes, as `len` counts) at least 10 and its last two bytes parse as an
odd integer, and 0 otherwise: rule 6 adds 6 in that case and leaves the points alone
otherwise, and the score is the score of the same receipt with an empty date plus that
contribution (in the 64-bit `int`; the plain sum when it does not overflow).  Hence for every
date accepted by `isValidDate` it is 6 exactly when the day of the month is odd. -/
theorem odd_day_contribution (oor : F64 → Int) (r : Receipt) :
    (∀ points, oddDayRule r.PurchaseDate points
        = some (if lastTwoOdd r.PurchaseDate then wrap64 (points + 6) else points))
    ∧ (∃ p0, calculatePoints oor { r with PurchaseDate := [] } = some p0
        ∧ calculatePoints oor r
            = some (wrap64 (p0 + if lastTwoOdd r.PurchaseDate then 6 else 0))
        ∧ (p0 + 6 < 2 ^ 63 → calculatePoints oor r
            = some (p0 + if lastTwoOdd r.PurchaseDate then 6 else 0)))
    ∧ (isValidDate r.PurchaseDate = some true →
        (lastTwoOdd r.PurchaseDate = true ↔ dayOf r.PurchaseDate % 2 = 1))
    ∧ lastTwoOdd "2022-01-01".toList = true ∧ lastTwoOdd "2022-01-02".toList = false
    ∧ lastTwoOdd "1-01".toList = false ∧ lastTwoOdd "day of month 13".toList = true := by
  refine ⟨oddDayRule_spec r.PurchaseDate, ?_, lastTwoOdd_of_valid r.PurchaseDate,
    by decide, by decide, by decide, by decide⟩
  have e0 : calculatePoints oor { r with PurchaseDate := [] }
      = some (wrap64 (retailerPoints r + roundDollarPoints r + quarterPoints r + pairPoints r
        + descriptionPoints oor r + afternoonPoints r)) := by
    rw [calculatePoints_eq, oddDayPoints_eq, lastTwoOdd_nil]
    simp only [Bool.false_eq_true, if_false, add_zero]
    rfl
  have e1 : calculatePoints oor r
      = some (wrap64 (retailerPoints r + roundDollarPoints r + quarterPoints r + pairPoints r
        + descriptionPoints oor r + afternoonPoints r
        + if lastTwoOdd r.PurchaseDate then 6 else 0)) := by
    rw [calculatePoints_eq, oddDayPoints_eq]
    congr 2; ring
  refine ⟨_, e0, ?_, ?_⟩
  · rw [e1, wrap64_add_left]
  · intro hlt
    rw [e1, wrap64_add_of_lt _ _ (by split <;> omega) (by split <;> omega)]

/-- C12. For every receipt, the retailer's contribution to `calculatePoints`, the score minus
the score of the same receipt with an empty retailer (in the 64-bit `int`; the plain
difference when the sum does not overflow), is the number of characters of the original,
untrimmed retailer string that are ASCII letters `a-z`, `A-Z` or digits `0-9`; spaces,
punctuation and non-ASCII letters contribute 0. -/
theorem retailer_contribution (oor : F64 → Int) (r : Receipt) :
    (∃ p0, calculatePoints oor { r with Retailer := [] } = some p0
      ∧ calculatePoints oor r
          = some (wrap64 (p0 + ((r.Retailer.countP isAsciiAlnum : Nat) : Int)))
      ∧ (p0 + ((r.Retailer.countP isAsciiAlnum : Nat) : Int) < 2 ^ 63 →
          calculatePoints oor r = some (p0 + ((r.Retailer.countP isAsciiAlnum : Nat) : Int))))
    ∧ (∀ c : Char, isAsciiAlnum c = true ↔
        ((97 ≤ c.toNat ∧ c.toNat ≤ 122) ∨ (65 ≤ c.toNat ∧ c.toNat ≤ 90)
          ∨ (48 ≤ c.toNat ∧ c.toNat ≤ 57)))
    ∧ (∀ c : Char, 128 ≤ c.toNat → isAsciiAlnum c = false)
    ∧ "M&M Corner Market".toList.countP isAsciiAlnum = 14
    ∧ "  Café 24/7 ".toList.countP isAsciiAlnum = 6 := by
  refine ⟨?_, ?_, ?_, by decide, by decide⟩
  · have e0 : calculatePoints oor { r with Retailer := [] }
        = some (wrap64 (roundDollarPoints r + quarterPoints r + pairPoints r
          + descriptionPoints oor r + oddDayPoints r + afternoonPoints r)) := by
      rw [calculatePoints_eq]
      have : retailerPoints { r with Retailer := [] } = 0 := rfl
      rw [this, zero_add]
      rfl
    have e1 : calculatePoints oor r
        = some (wrap64 (roundDollarPoints r + quarterPoints r + pairPoints r
          + descriptionPoints oor r + oddDayPoints r + afternoonPoints r
          + ((r.Retailer.countP isAsciiAlnum : Nat) : Int))) := by
      rw [calculatePoints_eq]
      unfold retailerPoints
      congr 2; ring
    refine ⟨_, e0, ?_, ?_⟩
    · rw [e1, wrap64_add_left]
    · intro hlt
      rw [e1, wrap64_add_of_lt _ _ (by omega) hlt]
  · intro c
    simp [isAsciiAlnum]
  · intro c hc
    simp only [isAsciiAlnum, decide_eq_false_iff_not]
    omega

set_option maxRecDepth 100000 in
/-- C13. For every receipt, the total's contribution to `calculatePoints` is 50 if the total
parses as a number whose value is whole (value modulo 1 is 0) plus, independently, 25 if it
parses as a number whose value is a multiple of 0.25; a total that does not parse contributes
0.  The value is that of the parsed `float64`: `35.35` contributes 0, `2.00` contributes 75,
and so does `0.99999999999999999999`, which parses to 1. -/
theorem total_contribution (oor : F64 → Int) (r : Receipt) :
    (∀ a, quarterRule r.Total (roundDollarRule r.Total (wrap64 a))
        = wrap64 (a + totalPoints r.Total))
    ∧ (∃ p0, calculatePoints oor { r with Total := [] } = some p0
      ∧ calculatePoints oor r = some (wrap64 (p0 + totalPoints r.Total))
      ∧ (p0 + 75 < 2 ^ 63 → calculatePoints oor r = some (p0 + totalPoints r.Total)))
    ∧ (ParseFloat (bytes r.Total) = none → totalPoints r.Total = 0)
    ∧ (∀ neg m e, (F64.fin neg m e).isWhole = true
        ↔ ∃ j : ℤ, (F64.fin neg m e).toRat = (j : ℚ))
    ∧ (∀ neg m e, (F64.fin neg m e).isQuarterMultiple = true
        ↔ ∃ j : ℤ, (F64.fin neg m e).toRat * 4 = (j : ℚ))
    ∧ totalPoints "35.35".toList = 0 ∧ totalPoints "2.00".toList = 75
    ∧ totalPoints "0.75".toList = 25 ∧ totalPoints "abc".toList = 0
    ∧ totalPoints "inf".toList = 0 ∧ totalPoints "NaN".toList = 0
    ∧ totalPoints "0.99999999999999999999".toList = 75 := by
  refine ⟨totalRules_eq r.Total, ?_, ?_, ?_, ?_, by decide, by decide, by decide, by decide,
    by decide, by decide, by decide⟩
  · have hr := totalPoints_range r.Total
    have e0 : calculatePoints oor { r with Total := [] }
        = some (wrap64 (retailerPoints r + pairPoints r
          + descriptionPoints oor r + oddDayPoints r + afternoonPoints r)) := by
      rw [calculatePoints_eq]
      have h := totalPoints_eq { r with Total := [] }
      rw [totalPoints_nil] at h
      have : retailerPoints { r with Total := [] } + roundDollarPoints { r with Total := [] }
          + quarterPoints { r with Total := [] } = retailerPoints r := by
        rw [Int.add_assoc, h, add_zero]; rfl
      rw [this]
      rfl
    have e1 : calculatePoints oor r
        = some (wrap64 (retailerPoints r + pairPoints r
          + descriptionPoints oor r + oddDayPoints r + afternoonPoints r
          + totalPoints r.Total)) := by
      rw [calculatePoints_eq, ← totalPoints_eq]
      congr 2; ring
    refine ⟨_, e0, ?_, ?_⟩
    · rw [e1, wrap64_add_left]
    · intro hlt
      rw [e1, wrap64_add_of_lt _ _ hr.1 (by omega)]
  · intro h
    unfold totalPoints
    rw [h]
  · intro neg m e
    have := isMultiple_iff neg m e 0
    simpa [F64.isWhole] using this
  · intro neg m e
    have := isMultiple_iff neg m e 2
    norm_num at this
    simpa [F64.isQuarterMultiple] using this

set_option maxRecDepth 100000 in
/-- C14. For every receipt, the description-length contribution to `calculatePoints` is the
sum, over the items whose shortDescription, leading and trailing white space removed, has a
number of bytes that is a multiple of 3 (a trimmed length of 0 counts), of
`int(math.Ceil(price * 0.2))` where `price` is the item's parsed price; this term is the
least integer not below the value of the `float64` product whenever that integer fits the
64-bit `int`.  An item whose price does not parse contributes 0 and does not fail the
computation.  The contribution is the score minus the score of the same receipt with every
price replaced by a text that does not parse.  Removing the white space leaves the text
between two blank ends, and what is left neither starts nor ends with white space.  The
instances run the loop of rule 5 on descriptions for which the trimming decides. -/
theorem description_contribution (oor : F64 → Int) (r : Receipt) :
    (∀ a, itemsLoop oor r.Items (wrap64 a)
        = wrap64 (a + ((r.Items.filter countedItem).map (priceTerm oor)).sum))
    ∧ (∃ p0, calculatePoints oor { r with Items := r.Items.map Item.withoutPrice } = some p0
        ∧ calculatePoints oor r
            = some (wrap64 (p0 + ((r.Items.filter countedItem).map (priceTerm oor)).sum))
        ∧ ((-(2 ^ 63) ≤ p0 + ((r.Items.filter countedItem).map (priceTerm oor)).sum
              ∧ p0 + ((r.Items.filter countedItem).map (priceTerm oor)).sum < 2 ^ 63) →
            calculatePoints oor r
              = some (p0 + ((r.Items.filter countedItem).map (priceTerm oor)).sum)))
    ∧ (∀ item, ParseFloat (bytes item.Price) = none → priceTerm oor item = 0)
    ∧ (∀ item price neg m e, ParseFloat (bytes item.Price) = some price →
        price.mul const02 = .fin neg m e →
        -(2 ^ 63) ≤ ⌈(F64.fin neg m e).toRat⌉ → ⌈(F64.fin neg m e).toRat⌉ < 2 ^ 63 →
        priceTerm oor item = ⌈(F64.fin neg m e).toRat⌉
        ∧ (Ceil (price.mul const02)).toInt oor = ⌈(F64.fin neg m e).toRat⌉)
    ∧ (∀ s, TrimSpace s = trimWhite s)
    ∧ (∀ s, ∃ l r, s = l ++ trimWhite s ++ r ∧ isBlank l = true ∧ isBlank r = true
        ∧ (∀ c, (trimWhite s).head? = some c → isWhiteSpace c = false)
        ∧ (∀ c, (trimWhite s).getLast? = some c → isWhiteSpace c = false))
    ∧ itemsLoop oor [⟨" a ".toList, "10.00".toList⟩] 0 = 0
    ∧ itemsLoop oor [⟨" ".toList, "10.00".toList⟩] 0 = 2
    ∧ itemsLoop oor [⟨[], "10.00".toList⟩] 0 = 2
    ∧ itemsLoop oor [⟨"   ".toList, "5".toList⟩] 0 = 1
    ∧ itemsLoop oor [⟨"   Klarbrunn 12-PK 12 FL OZ  ".toList, "12.00".toList⟩] 0 = 3
    ∧ itemsLoop oor [⟨"\tabc\n".toList, "5".toList⟩] 0 = 1
    ∧ itemsLoop oor [⟨"\u00a0abc\u3000".toList, "5".toList⟩] 0 = 1
    ∧ itemsLoop oor [⟨"a b ".toList, "5".toList⟩] 0 = 1
    ∧ itemsLoop oor [⟨"_ab".toList, "5".toList⟩] 0 = 1
    ∧ itemsLoop oor [⟨"\u001fab".toList, "5".toList⟩] 0 = 1
    ∧ itemsLoop oor [⟨"éa".toList, "10".toList⟩] 0 = 2
    ∧ itemsLoop oor [⟨"Emils Cheese Pizza".toList, "12.25".toList⟩] 0 = 3
    ∧ itemsLoop oor [⟨"Mountain Dew 12PK".toList, "6.49".toList⟩] 0 = 0
    ∧ itemsLoop oor [⟨"abc".toList, "x".toList⟩, ⟨"def".toList, "1.01".toList⟩] 7 = 8
    ∧ itemsLoop oor [⟨"abc".toList, "-7.5".toList⟩] 0 = -1
    ∧ calculatePoints oor fiveItemReceipt = some 28
    ∧ calculatePoints oor { fiveItemReceipt with
        Items := fiveItemReceipt.Items.map Item.withoutPrice } = some 22
    ∧ countedItem ⟨" a ".toList, "10.00".toList⟩ = false
    ∧ countedItem ⟨" ".toList, "10.00".toList⟩ = true
    ∧ countedItem ⟨"éa".toList, "10".toList⟩ = true
    ∧ countedItem ⟨"Mountain Dew 12PK".toList, "6.49".toList⟩ = false
    ∧ trimWhite "   Klarbrunn 12-PK 12 FL OZ  ".toList = "Klarbrunn 12-PK 12 FL OZ".toList
    ∧ trimWhite " \t\n ".toList = []
    ∧ priceTerm oor ⟨"Emils Cheese Pizza".toList, "12.25".toList⟩ = 3
    ∧ priceTerm oor ⟨"abc".toList, "-7.5".toList⟩ = -1 := by
  refine ⟨?_, ?_, ?_, ?_, TrimSpace_eq_trimWhite, trimWhite_spec,
    rfl, rfl, rfl, rfl, rfl, rfl, rfl, rfl, rfl, rfl, rfl, rfl, rfl, rfl, rfl, rfl, rfl,
    by decide, by decide, by decide, by decide, by decide, by decide,
    priceTerm_pizza oor, priceTerm_negative oor⟩
  · intro a
    rw [itemsLoop_eq, descriptionPoints_eq]
  · have e0 : calculatePoints oor { r with Items := r.Items.map Item.withoutPrice }
        = some (wrap64 (retailerPoints r + roundDollarPoints r + quarterPoints r + pairPoints r
          + oddDayPoints r + afternoonPoints r)) := by
      rw [calculatePoints_eq]
      have h1 : pairPoints { r with Items := r.Items.map Item.withoutPrice } = pairPoints r := by
        simp [pairPoints]
      have h2 : descriptionPoints oor { r with Items := r.Items.map Item.withoutPrice } = 0 :=
        descriptionPoints_withoutPrice oor r.Items
      rw [h1, h2, add_zero]
      rfl
    have e1 : calculatePoints oor r
        = some (wrap64 (retailerPoints r + roundDollarPoints r + quarterPoints r + pairPoints r
          + oddDayPoints r + afternoonPoints r
          + ((r.Items.filter countedItem).map (priceTerm oor)).sum)) := by
      rw [calculatePoints_eq, ← descriptionPoints_eq]
      unfold descriptionPoints
      congr 2; ring
    refine ⟨_, e0, ?_, ?_⟩
    · rw [e1, wrap64_add_left]
    · intro hr
      rw [e1, ← wrap64_add_left, wrap64_of_range _ hr.1 hr.2]
  · intro item h
    unfold priceTerm
    rw [h]
  · intro item price neg m e hp hm h1 h2
    refine ⟨priceTerm_eq_ceil oor item price neg m e hp hm h1 h2, ?_⟩
    rw [hm]
    exact toInt_Ceil_eq_ceil oor neg m e h1 h2

/-- C15. For every receipt with `n` items, the item-pair contribution to `calculatePoints`
is exactly `5 * floor (n / 2)`, whatever the items' contents: the score is the score of the
same receipt without items, plus `5 * floor (n / 2)`, plus the contribution of rule 5, which
alone depends on the contents (sums in the 64-bit `int`; plain when they do not overflow). -/
theorem pair_contribution (oor : F64 → Int) (r : Receipt) :
    Int.tdiv (r.Items.length : Int) 2 * 5 = 5 * ((r.Items.length / 2 : Nat) : Int)
    ∧ (∃ p0, calculatePoints oor { r with Items := [] } = some p0
      ∧ calculatePoints oor r
          = some (wrap64 (p0 + 5 * ((r.Items.length / 2 : Nat) : Int)
              + descriptionPoints oor r))
      ∧ ((∀ item ∈ r.Items, itemPoints oor item = 0) →
          calculatePoints oor r = some (wrap64 (p0 + 5 * ((r.Items.length / 2 : Nat) : Int))))
      ∧ ((∀ item ∈ r.Items, itemPoints oor item = 0) →
          p0 + 5 * ((r.Items.length / 2 : Nat) : Int) < 2 ^ 63 →
          calculatePoints oor r = some (p0 + 5 * ((r.Items.length / 2 : Nat) : Int)))) := by
  refine ⟨pairRule_eq r, ?_⟩
  have e0 : calculatePoints oor { r with Items := [] }
      = some (wrap64 (retailerPoints r + roundDollarPoints r + quarterPoints r
        + oddDayPoints r + afternoonPoints r)) := by
    rw [calculatePoints_eq]
    have h1 : pairPoints { r with Items := [] } = 0 := by simp [pairPoints]
    have h2 : descriptionPoints oor { r with Items := [] } = 0 := rfl
    rw [h1, h2, add_zero, add_zero]
    rfl
  have e1 : calculatePoints oor r
      = some (wrap64 (retailerPoints r + roundDollarPoints r + quarterPoints r
        + oddDayPoints r + afternoonPoints r + 5 * ((r.Items.length / 2 : Nat) : Int)
        + descriptionPoints oor r)) := by
    rw [calculatePoints_eq]
    unfold pairPoints
    congr 2; ring
  have hz : (∀ item ∈ r.Items, itemPoints oor item = 0) → descriptionPoints oor r = 0 := by
    intro h
    unfold descriptionPoints
    apply List.sum_eq_zero
    intro v hv
    obtain ⟨item, hi, rfl⟩ := List.mem_map.1 hv
    exact h item hi
  refine ⟨_, e0, ?_, ?_, ?_⟩
  · rw [e1]; congr 1; unfold wrap64; omega
  · intro h
    rw [e1, hz h, add_zero, wrap64_add_left]
  · intro h hlt
    rw [e1, hz h, add_zero, wrap64_add_of_lt _ _ (by omega) hlt]

set_option maxRecDepth 100000 in
/-- C16 (the code at the failing input). For the time `15:xx` the hour parses as 15 and the
minute does not parse, so the condition of the claim fails, yet rule 7 adds 10: in
`errHour == nil && errMinute == nil && hour == 14 && minute >= 0 || (hour == 15 && minute < 60)`
the error checks guard the first alternative only, and `strconv.Atoi` returns 0 with its
error.  The first receipt of the specification scores 12 at `00:00` and 22 at `15:xx`. -/
theorem bonus_despite_unparsed_minute :
    (Atoi (bytes "15".toList)).err = false
    ∧ (Atoi (bytes "xx".toList)).err = true
    ∧ timeBonusSpec "15:xx".toList = false
    ∧ (∀ p, afternoonRule "15:xx".toList p = some (wrap64 (p + 10)))
    ∧ (∀ oor, calculatePoints oor { targetReceipt with PurchaseTime := "00:00".toList }
        = some 12)
    ∧ (∀ oor, calculatePoints oor { targetReceipt with PurchaseTime := "15:xx".toList }
        = some 22) :=
  ⟨by decide, by decide, by decide, fun _ => rfl, fun _ => rfl, fun _ => rfl⟩

set_option maxRecDepth 100000 in
/-- C17 (what holds, and the code at the failing input). `calculatePoints` is total: for
every receipt, validated or not, it returns a score, and the slices of rules 6 and 7 are
within bounds.  A total that does not parse, prices that do not parse, a day that does not
parse and an hour that does not parse make their rule contribute zero.  A minute that does
not parse does not: at `15:xx` rule 7 adds 10. -/
theorem calculatePoints_total (oor : F64 → Int) (r : Receipt) :
    (∃ v, calculatePoints oor r = some v)
    ∧ (∀ p, ∃ v, oddDayRule r.PurchaseDate p = some v)
    ∧ (∀ p, ∃ v, afternoonRule r.PurchaseTime p = some v)
    ∧ (∀ p, ParseFloat (bytes r.Total) = none →
        quarterRule r.Total (roundDollarRule r.Total p) = p)
    ∧ (∀ p, (∀ item ∈ r.Items, ParseFloat (bytes item.Price) = none) →
        itemsLoop oor r.Items p = p)
    ∧ (∀ p, (Atoi (lastTwoBytes r.PurchaseDate)).err = true →
        oddDayRule r.PurchaseDate p = some p)
    ∧ (∀ p, (Atoi ((bytes r.PurchaseTime).take 2)).err = true →
        afternoonRule r.PurchaseTime p = some p)
    ∧ calculatePoints oor emptyReceipt = some 0
    ∧ (Atoi ((bytes "15:xx".toList).drop 3)).err = true
    ∧ (∀ p, afternoonRule "15:xx".toList p = some (wrap64 (p + 10))) := by
  refine ⟨⟨_, calculatePoints_eq oor r⟩, fun p => ⟨_, oddDayRule_spec _ p⟩,
    fun p => ⟨_, afternoonRule_spec _ p⟩, ?_, ?_, ?_, ?_, rfl, by decide, fun _ => rfl⟩
  · intro p h
    rw [roundDollarRule_of_unparsed _ _ h, quarterRule_of_unparsed _ _ h]
  · intro p h
    exact itemsLoop_of_unparsed oor r.Items p h
  · intro p h
    exact oddDayRule_of_unparsed _ p h
  · intro p h
    exact afternoonRule_of_unparsed_hour _ p h

/-- C18. The validator is total: for every input string, the empty one included,
`isValidDate` and `isValidTime` return true or false without failing, and for every decoded
receipt the validation pipeline returns a classified outcome: no failing check, or the reason
of the first one, and `processReceiptHandler` answers 200 or 400 accordingly. -/
theorem validator_total (oor : F64 → Int) (receipts : Store) (r : Receipt) (b : Entropy) :
    (∀ s, isValidDate s = some true ∨ isValidDate s = some false)
    ∧ (∀ s, isValidTime s = some true ∨ isValidTime s = some false)
    ∧ (firstFailure r = none ∨ ∃ reason, firstFailure r = some reason)
    ∧ (∃ receipts' resp,
        processReceiptHandler oor receipts (postReceipt r) (some b) = some (receipts', resp)
        ∧ (resp.status = 200 ∨ resp.status = 400))
    ∧ isValidDate [] = some false ∧ isValidTime [] = some false
    ∧ isValidDate "2022-01-0".toList = some false
    ∧ isValidTime "1:0".toList = some false := by
  refine ⟨?_, ?_, ?_, ?_, by decide, by decide, by decide, by decide⟩
  · intro s
    obtain ⟨v, hv⟩ := isValidDate_total s
    cases v
    · exact Or.inr hv
    · exact Or.inl hv
  · intro s
    obtain ⟨v, hv⟩ := isValidTime_total s
    cases v
    · exact Or.inr hv
    · exact Or.inl hv
  · cases firstFailure r with
    | none => exact Or.inl rfl
    | some reason => exact Or.inr ⟨reason, rfl⟩
  · rw [processReceiptHandler_post]
    cases firstFailure r with
    | none =>
      obtain ⟨p, hc⟩ : ∃ p, calculatePoints oor r = some p := ⟨_, calculatePoints_eq oor r⟩
      exact ⟨_, _, by simp [generateID, hc]; exact ⟨rfl, rfl⟩, Or.inl rfl⟩
    | some reason => exact ⟨_, _, rfl, Or.inr rfl⟩

set_option maxRecDepth 100000 in
/-- C19. For every total string, whenever the round-dollar rule fires the quarter-multiple
rule fires too, so the total's joint contribution to `calculatePoints` is one of 0, 25 or 75
and never exactly 50. -/
theorem round_dollar_implies_quarter (total : GoString) :
    (∀ x : F64, (Mod x const1).isZero = true → (Mod x const025).isZero = true)
    ∧ (∀ p, roundDollarRule total p = if roundDollarFires total then wrap64 (p + 50) else p)
    ∧ (∀ p, quarterRule total p = if quarterFires total then wrap64 (p + 25) else p)
    ∧ (roundDollarFires total = true → quarterFires total = true)
    ∧ (totalPoints total = 0 ∨ totalPoints total = 25 ∨ totalPoints total = 75)
    ∧ (∀ a, quarterRule total (roundDollarRule total (wrap64 a))
        = wrap64 (a + totalPoints total))
    ∧ totalPoints "5.10".toList = 0 ∧ totalPoints "5.25".toList = 25
    ∧ totalPoints "5".toList = 75 := by
  refine ⟨Mod_const1_imp_const025, roundDollarRule_fires total, quarterRule_fires total, ?_,
    totalPoints_values total, totalRules_eq total, by decide, by decide, by decide⟩
  unfold roundDollarFires quarterFires
  cases ParseFloat (bytes total) with
  | none => intro h; exact h
  | some x => exact Mod_const1_imp_const025 x

set_option maxRecDepth 100000 in
/-- C20. The validation outcome does not depend on the total field: two receipts that differ
only in total get the same first failing check and, from `processReceiptHandler`, the same
response (status, reason or identifier).  A receipt whose total is not a number is accepted
and scored with both total rules contributing 0. -/
theorem validation_ignores_total (oor : F64 → Int) (receipts : Store) (r : Receipt)
    (total : GoString) (rnd : Option Entropy) :
    firstFailure { r with Total := total } = firstFailure r
    ∧ passesValidation { r with Total := total } = passesValidation r
    ∧ (processReceiptHandler oor receipts (postReceipt { r with Total := total }) rnd).map
          (fun out => out.2)
        = (processReceiptHandler oor receipts (postReceipt r) rnd).map (fun out => out.2)
    ∧ (ParseFloat (bytes total) = none →
        ∀ p, quarterRule total (roundDollarRule total p) = p)
    ∧ passesValidation { walmartReceipt with Total := "not a number".toList } = true
    ∧ ParseFloat (bytes "not a number".toList) = none
    ∧ totalPoints "not a number".toList = 0
    ∧ calculatePoints oor { walmartReceipt with Total := "not a number".toList } = some 23
    ∧ (processReceiptHandler oor emptyStore
          (postReceipt { walmartReceipt with Total := "not a number".toList })
          (some zeroEntropy)).map (fun out => out.2.status) = some 200 := by
  have hf : firstFailure { r with Total := total } = firstFailure r := rfl
  refine ⟨hf, rfl, ?_,
    fun h p => by rw [roundDollarRule_of_unparsed _ _ h, quarterRule_of_unparsed _ _ h],
    by decide, by decide, by decide, rfl, rfl⟩
  rw [processReceiptHandler_post, processReceiptHandler_post, hf]
  cases firstFailure r with
  | some reason => rfl
  | none =>
    cases rnd with
    | none => rfl
    | some b =>
      obtain ⟨p, hc⟩ : ∃ p, calculatePoints oor r = some p := ⟨_, calculatePoints_eq oor r⟩
      obtain ⟨p', hc'⟩ : ∃ p, calculatePoints oor { r with Total := total } = some p :=
        ⟨_, calculatePoints_eq oor _⟩
      simp [generateID, hc, hc']

end ReceiptProcessor
